import Mathlib

/-!
Verification of the chunked map-generation engine of
`src/chapter10/src/map/generate.rs`.

The Rust source is shallowly embedded below.  Pure helper functions become
Lean functions; the sequential background job becomes an explicit fold over
the row-major chunk list threading a `GenState`; the external constraint
solver (the `ghx_proc_gen` generator built in `try_generate_chunk`, which
draws a fresh random seed per attempt) is modelled as an `Oracle`: a function
from the global attempt counter and the list of initial (pinned) nodes to an
optional solved grid.  Rust panics become `Option.none` results tagged with a
`GenError`.  Machine integers (`u32`) stay well inside their range here, so
they are modelled as `Nat`; the `f32` world-offset arithmetic of the
assembler is modelled exactly over `ℚ`.

The chapter-10 config module (`crate::config::map`, providing `GRID_X`,
`GRID_Y`, `CHUNKS_X`, `CHUNKS_Y`, `TILE_SIZE`, `NODE_SIZE_Z`,
`TOTAL_GRID_X`, `TOTAL_GRID_Y`) is not among the provided sources, so those
constants are kept as parameters (`GenCfg`, `AsmCfg`); `GRID_Z = 5` and
`MAX_UNPIN_RADIUS = 5` are constants of `generate.rs` itself and are fixed.
-/

set_option maxRecDepth 4000

namespace MapGen

/-- Per-chunk and chunk-grid dimensions, from the (absent) config module
`crate::config::map`.  Kept abstract; the source only requires them to be
`u32` constants. -/
structure GenCfg where
  GRID_X : Nat
  GRID_Y : Nat
  CHUNKS_X : Nat
  CHUNKS_Y : Nat
deriving DecidableEq

/-- Constant `GRID_Z: u32 = 5` of `generate.rs`. -/
def GRID_Z : Nat := 5

/-- Constant `MAX_UNPIN_RADIUS: u32 = 5` of `generate.rs`. -/
def MAX_UNPIN_RADIUS : Nat := 5

/-- The solver's per-cell output (`ModelInstance` of `ghx_proc_gen`): an
opaque model index plus a rotation, never interpreted by the engine. -/
structure ModelInstance where
  model_index : Nat
  rotation : Nat
deriving DecidableEq

/-- A local cell `(x, y, z)` of one chunk's grid. -/
abbrev Cell := Nat × Nat × Nat

/-- A solved chunk grid (`GridData`), read only through its flat index. -/
abbrev Grid := Nat → ModelInstance

/-- One pinned initial node: a local cell plus the model pinned there. -/
abbrev Node := Cell × ModelInstance

/-- The external constraint solver behind `try_generate_chunk`: given the
global attempt counter (each attempt draws a fresh `RngMode::RandomSeed`)
and the initial pinned nodes, it returns a solved grid or fails. -/
abbrev Oracle := Nat → List Node → Option Grid

/-- Row-major flat index of `CartesianGrid::index_from_coords`. -/
def index_from_coords (cfg : GenCfg) (x y z : Nat) : Nat :=
  x + y * cfg.GRID_X + z * cfg.GRID_X * cfg.GRID_Y

/-- Inverse of `index_from_coords` (`CartesianGrid::pos_from_index`). -/
def pos_from_index (cfg : GenCfg) (i : Nat) : Cell :=
  (i % cfg.GRID_X, i / cfg.GRID_X % cfg.GRID_Y, i / (cfg.GRID_X * cfg.GRID_Y))

/-- Left-column seeds of `build_initial_nodes`: pin every `(0, y, z)` to the
left neighbor's value at `(GRID_X - 1, y, z)`. -/
def leftSeeds (cfg : GenCfg) (left : Grid) : List Node :=
  (List.range cfg.GRID_Y).flatMap fun y =>
    (List.range GRID_Z).map fun z =>
      (((0 : Nat), y, z), left (index_from_coords cfg (cfg.GRID_X - 1) y z))

/-- Bottom-row seeds of `build_initial_nodes`: pin `(x, 0, z)` to the bottom
neighbor's value at `(x, GRID_Y - 1, z)`, with `x` starting at `1` when
`cx > 0` to avoid re-pinning the shared corner cell. -/
def bottomSeeds (cfg : GenCfg) (cx : Nat) (bottom : Grid) : List Node :=
  let start_x : Nat := if 0 < cx then 1 else 0
  (List.range' start_x (cfg.GRID_X - start_x)).flatMap fun x =>
    (List.range GRID_Z).map fun z =>
      ((x, (0 : Nat), z), bottom (index_from_coords cfg x (cfg.GRID_Y - 1) z))

/-- The seam seeder `build_initial_nodes`.  The Rust code indexes the
`HashMap` of generated chunks directly (`&generated_chunks[&(cx-1, cy)]`),
which panics on a missing key; that panic is modelled as `none`. -/
def build_initial_nodes (cfg : GenCfg) (cx cy : Nat)
    (store : List ((Nat × Nat) × Grid)) : Option (List Node) :=
  Option.bind
    (if 0 < cx then (store.lookup (cx - 1, cy)).map (leftSeeds cfg)
     else some []) fun l =>
  Option.bind
    (if 0 < cy then (store.lookup (cx, cy - 1)).map (bottomSeeds cfg cx)
     else some []) fun b =>
  some (l ++ b)

/-- Border zones built inside `try_generate_chunk`: for every initial node,
all `6` face directions of its cell are registered as externally
constrained. -/
def border_zones (cfg : GenCfg) (nodes : List Node) : List (Nat × Nat) :=
  nodes.flatMap fun p =>
    (List.range 6).map fun dir =>
      (index_from_coords cfg p.1.1 p.1.2.1 p.1.2.2, dir)

/-- The reduced seed set used by the progressive-unpinning fallback: keep
exactly the nodes whose cell is NOT in the L-shaped corner region
`(x == 0 && y < radius) || (y == 0 && x > 0 && x <= radius)`. -/
def reducedNodes (nodes : List Node) (radius : Nat) : List Node :=
  nodes.filter fun p =>
    !((p.1.1 == 0 && p.1.2.1 < radius) ||
      (p.1.2.1 == 0 && decide (0 < p.1.1) && p.1.1 ≤ radius))

/-- The radius ladder `1..=MAX_UNPIN_RADIUS` of
`generate_chunk_with_fallback`. -/
def radiusLadder : List Nat := (List.range MAX_UNPIN_RADIUS).map (· + 1)

/-- The retry loop of `generate_chunk_with_fallback` over a list of radii.
Returns the result, the seed sets attempted in order, and the advanced
attempt counter. -/
def tryRadii (oracle : Oracle) (nodes : List Node) :
    Nat → List Nat → Option Grid × List (List Node) × Nat
  | k, [] => (none, [], k)
  | k, r :: rs =>
    let red := reducedNodes nodes r
    match oracle k red with
    | some g => (some g, [red], k + 1)
    | none =>
      let rec' := tryRadii oracle nodes (k + 1) rs
      (rec'.1, red :: rec'.2.1, rec'.2.2)

/-- `generate_chunk_with_fallback`: try the full seed set first; on failure
of a corner (doubly-seeded) chunk walk the radius ladder, stopping at the
first success; a non-corner failure or an exhausted ladder is the Rust
panic, modelled as `none`.  Alongside the result it returns the list of
seed sets attempted, in order, and the advanced attempt counter. -/
def generate_chunk_with_fallback (oracle : Oracle) (k : Nat)
    (nodes : List Node) (is_corner : Bool) :
    Option Grid × List (List Node) × Nat :=
  match oracle k nodes with
  | some g => (some g, [nodes], k + 1)
  | none =>
    if is_corner then
      let r := tryRadii oracle nodes (k + 1) radiusLadder
      (r.1, nodes :: r.2.1, r.2.2)
    else
      (none, [nodes], k + 1)

/-- The two panics of `generate_all_chunks` / `generate_chunk_with_fallback`
plus the implicit panic of a missing `HashMap` key in seeding. -/
inductive GenError where
  | missingNeighbor (c : Nat × Nat)
  | nonCornerFailed (c : Nat × Nat)
  | cornerFailed (c : Nat × Nat)
deriving DecidableEq

/-- State threaded through the sequential chunk-generation job: the solved
grids keyed by chunk coordinate (insertion order = generation order), the
shared progress counter, the list of its successive values, the chunks
attempted so far, the global attempt counter feeding the oracle, and the
pending panic, if any. -/
structure GenState where
  store : List ((Nat × Nat) × Grid)
  progress : Nat
  progressTrace : List Nat
  processed : List (Nat × Nat)
  attempts : Nat
  err : Option GenError

/-- Initial state of the job (`HashMap::new()`, counter `0`). -/
def initState : GenState :=
  { store := [], progress := 0, progressTrace := [], processed := [],
    attempts := 0, err := none }

/-- Body of the per-chunk loop of `generate_all_chunks`: seed from
neighbors, generate with fallback, store the grid and bump the progress
counter.  A panic (`err`) freezes the state: no later chunk is processed. -/
def processChunk (cfg : GenCfg) (oracle : Oracle) (st : GenState)
    (c : Nat × Nat) : GenState :=
  if st.err.isSome then st
  else
    match build_initial_nodes cfg c.1 c.2 st.store with
    | none => { st with err := some (.missingNeighbor c),
                        processed := st.processed ++ [c] }
    | some nodes =>
      let is_corner := decide (0 < c.1) && decide (0 < c.2)
      let r := generate_chunk_with_fallback oracle st.attempts nodes is_corner
      match r.1 with
      | some g =>
        { store := st.store ++ [(c, g)],
          progress := st.progress + 1,
          progressTrace := st.progressTrace ++ [st.progress + 1],
          processed := st.processed ++ [c],
          attempts := r.2.2,
          err := none }
      | none =>
        { st with
          attempts := r.2.2,
          processed := st.processed ++ [c],
          err := some (if is_corner then .cornerFailed c
                       else .nonCornerFailed c) }

/-- The row-major chunk order of `generate_all_chunks`
(`for cy in 0..CHUNKS_Y { for cx in 0..CHUNKS_X { ... } }`). -/
def rowMajor (cfg : GenCfg) : List (Nat × Nat) :=
  (List.range cfg.CHUNKS_Y).flatMap fun cy =>
    (List.range cfg.CHUNKS_X).map fun cx => (cx, cy)

/-- The whole background job `generate_all_chunks`, as the final state of
the sequential fold over the row-major chunk list. -/
def generate_all_chunks (cfg : GenCfg) (oracle : Oracle) : GenState :=
  (rowMajor cfg).foldl (processChunk cfg oracle) initState

/-- The progress resource inserted by `setup_generator`:
`AtomicU32::new(0)` and `total = CHUNKS_X * CHUNKS_Y`. -/
structure ProgressRes where
  current : Nat
  total : Nat
deriving DecidableEq

/-- `setup_generator`'s initialization of `MapGenProgress`. -/
def setup_progress (cfg : GenCfg) : ProgressRes :=
  { current := 0, total := cfg.CHUNKS_X * cfg.CHUNKS_Y }

end MapGen

namespace MapGen

/-! Basic facts about the reduced seed sets and the retry ladder. -/

theorem mem_reducedNodes {nodes : List Node} {r : Nat} {p : Node} :
    p ∈ reducedNodes nodes r ↔
      p ∈ nodes ∧
        ¬((p.1.1 = 0 ∧ p.1.2.1 < r) ∨ (p.1.2.1 = 0 ∧ 0 < p.1.1 ∧ p.1.1 ≤ r)) := by
  obtain ⟨⟨x, y, z⟩, m⟩ := p
  constructor
  · intro h
    have hm := List.mem_of_mem_filter h
    have hf := List.of_mem_filter h
    simp only [Bool.not_eq_true', Bool.or_eq_false_iff, Bool.and_eq_false_iff,
      beq_eq_false_iff_ne, ne_eq, decide_eq_false_iff_not, decide_eq_true_eq,
      not_lt, not_le] at hf
    exact ⟨hm, by dsimp only at hf ⊢; omega⟩
  · rintro ⟨hm, hn⟩
    refine List.mem_filter.mpr ⟨hm, ?_⟩
    simp only [Bool.not_eq_true', Bool.or_eq_false_iff, Bool.and_eq_false_iff,
      beq_eq_false_iff_ne, ne_eq, decide_eq_false_iff_not, decide_eq_true_eq,
      not_lt, not_le]
    dsimp only at hn ⊢
    omega

theorem reducedNodes_zero (nodes : List Node) : reducedNodes nodes 0 = nodes := by
  apply List.filter_eq_self.mpr
  intro p _
  simp only [Bool.not_eq_true', Bool.or_eq_false_iff, Bool.and_eq_false_iff,
    beq_eq_false_iff_ne, ne_eq, decide_eq_false_iff_not, decide_eq_true_eq,
    not_lt, not_le]
  omega

theorem tryRadii_attempts_eq (oracle : Oracle) (nodes : List Node) :
    ∀ rs k, (tryRadii oracle nodes k rs).2.2
      = k + (tryRadii oracle nodes k rs).2.1.length := by
  intro rs
  induction rs with
  | nil => intro k; simp [tryRadii]
  | cons r rs ih =>
    intro k
    cases h : oracle k (reducedNodes nodes r) with
    | some g => simp [tryRadii, h]
    | none =>
      simp only [tryRadii, h]
      rw [ih (k + 1)]
      simp [Nat.add_comm, Nat.add_assoc, Nat.add_left_comm]

theorem tryRadii_length_le (oracle : Oracle) (nodes : List Node) :
    ∀ rs k, (tryRadii oracle nodes k rs).2.1.length ≤ rs.length := by
  intro rs
  induction rs with
  | nil => intro k; simp [tryRadii]
  | cons r rs ih =>
    intro k
    cases h : oracle k (reducedNodes nodes r) with
    | some g => simp [tryRadii, h]
    | none =>
      simp only [tryRadii, h, List.length_cons]
      exact Nat.succ_le_succ (ih (k + 1))

theorem tryRadii_trace_get (oracle : Oracle) (nodes : List Node) :
    ∀ rs k i, i < (tryRadii oracle nodes k rs).2.1.length →
      ((tryRadii oracle nodes k rs).2.1)[i]?
        = (rs[i]?).map (reducedNodes nodes) := by
  intro rs
  induction rs with
  | nil => intro k i h; simp [tryRadii] at h
  | cons r rs ih =>
    intro k i
    cases h : oracle k (reducedNodes nodes r) with
    | some g =>
      simp only [tryRadii, h]
      intro hi
      simp at hi
      subst hi
      simp
    | none =>
      simp only [tryRadii, h, List.length_cons]
      intro hi
      cases i with
      | zero => simp
      | succ j =>
        simp only [List.getElem?_cons_succ]
        exact ih (k + 1) j (Nat.lt_of_succ_lt_succ hi)

theorem tryRadii_earlier_failed (oracle : Oracle) (nodes : List Node) :
    ∀ rs k i l, i + 1 < (tryRadii oracle nodes k rs).2.1.length →
      ((tryRadii oracle nodes k rs).2.1)[i]? = some l →
      oracle (k + i) l = none := by
  intro rs
  induction rs with
  | nil => intro k i l h; simp [tryRadii] at h
  | cons r rs ih =>
    intro k i l
    cases h : oracle k (reducedNodes nodes r) with
    | some g =>
      simp only [tryRadii, h]
      intro hi
      simp at hi
    | none =>
      simp only [tryRadii, h, List.length_cons]
      intro hi hget
      cases i with
      | zero =>
        simp at hget
        subst hget
        simpa using h
      | succ j =>
        simp only [List.getElem?_cons_succ] at hget
        have := ih (k + 1) j l (Nat.lt_of_succ_lt_succ hi) hget
        simpa [Nat.add_comm, Nat.add_assoc, Nat.add_left_comm] using this

theorem tryRadii_all_failed (oracle : Oracle) (nodes : List Node) :
    ∀ rs k, (tryRadii oracle nodes k rs).1 = none →
      (tryRadii oracle nodes k rs).2.1.length = rs.length ∧
      ∀ i l, ((tryRadii oracle nodes k rs).2.1)[i]? = some l →
        oracle (k + i) l = none := by
  intro rs
  induction rs with
  | nil => intro k _; simp [tryRadii]
  | cons r rs ih =>
    intro k
    cases h : oracle k (reducedNodes nodes r) with
    | some g => simp [tryRadii, h]
    | none =>
      simp only [tryRadii, h, List.length_cons]
      intro hres
      obtain ⟨hlen, hall⟩ := ih (k + 1) hres
      refine ⟨by simpa using hlen, ?_⟩
      intro i l hget
      cases i with
      | zero =>
        simp at hget
        subst hget
        simpa using h
      | succ j =>
        simp only [List.getElem?_cons_succ] at hget
        have := hall j l hget
        simpa [Nat.add_comm, Nat.add_assoc, Nat.add_left_comm] using this

theorem tryRadii_success_at (oracle : Oracle) (nodes : List Node) :
    ∀ rs k g, (tryRadii oracle nodes k rs).1 = some g →
      ∃ i, i + 1 = (tryRadii oracle nodes k rs).2.1.length ∧ i < rs.length ∧
        oracle (k + i) (reducedNodes nodes ((rs[i]?).getD 0)) = some g := by
  intro rs
  induction rs with
  | nil => intro k g h; simp [tryRadii] at h
  | cons r rs ih =>
    intro k g
    cases h : oracle k (reducedNodes nodes r) with
    | some g0 =>
      simp only [tryRadii, h]
      intro hres
      simp at hres
      subst hres
      exact ⟨0, by simp, by simp, by simpa using h⟩
    | none =>
      simp only [tryRadii, h, List.length_cons]
      intro hres
      obtain ⟨i, hlen, hi, hsucc⟩ := ih (k + 1) g hres
      refine ⟨i + 1, by simpa using hlen, by simpa using hi, ?_⟩
      simp only [List.getElem?_cons_succ]
      have : k + (i + 1) = k + 1 + i := by omega
      rw [this]
      exact hsucc

theorem tryRadii_success_mem (oracle : Oracle) (nodes : List Node) :
    ∀ rs k g, (tryRadii oracle nodes k rs).1 = some g →
      ∃ r ∈ rs, ∃ j, oracle j (reducedNodes nodes r) = some g := by
  intro rs
  induction rs with
  | nil => intro k g h; simp [tryRadii] at h
  | cons r rs ih =>
    intro k g
    cases h : oracle k (reducedNodes nodes r) with
    | some g0 =>
      simp only [tryRadii, h]
      intro hres
      simp at hres
      subst hres
      exact ⟨r, List.mem_cons_self r rs, k, h⟩
    | none =>
      simp only [tryRadii, h]
      intro hres
      obtain ⟨r0, hr0, j, hj⟩ := ih (k + 1) g hres
      exact ⟨r0, List.mem_cons_of_mem r hr0, j, hj⟩

theorem radiusLadder_get (i : Nat) (h : i < MAX_UNPIN_RADIUS) :
    radiusLadder[i]? = some (i + 1) := by
  simp [radiusLadder, List.getElem?_map, List.getElem?_range h]

theorem mem_radiusLadder {r : Nat} :
    r ∈ radiusLadder ↔ 1 ≤ r ∧ r ≤ MAX_UNPIN_RADIUS := by
  simp only [radiusLadder, List.mem_map, List.mem_range]
  constructor
  · rintro ⟨i, hi, rfl⟩; omega
  · rintro ⟨h1, h2⟩; exact ⟨r - 1, by omega, by omega⟩

end MapGen

namespace MapGen

/-! Characterization of a successful `generate_chunk_with_fallback` call. -/

theorem fallback_success_char (oracle : Oracle) (k : Nat) (nodes : List Node)
    (ic : Bool) (g : Grid)
    (h : (generate_chunk_with_fallback oracle k nodes ic).1 = some g) :
    ∃ r, r ≤ MAX_UNPIN_RADIUS ∧ (ic = false → r = 0) ∧
      oracle (k + r) (reducedNodes nodes r) = some g := by
  unfold generate_chunk_with_fallback at h
  cases hfull : oracle k nodes with
  | some g0 =>
    rw [hfull] at h
    simp at h
    subst h
    exact ⟨0, by omega, fun _ => rfl, by simpa [reducedNodes_zero] using hfull⟩
  | none =>
    rw [hfull] at h
    cases ic with
    | false => simp at h
    | true =>
      simp only [if_pos] at h
      have := tryRadii_success_at oracle nodes radiusLadder (k + 1) g h
      obtain ⟨i, _, hi, hsucc⟩ := this
      have hlen : radiusLadder.length = MAX_UNPIN_RADIUS := by
        simp [radiusLadder]
      rw [hlen] at hi
      rw [radiusLadder_get i hi] at hsucc
      refine ⟨i + 1, by omega, by simp, ?_⟩
      have : k + (i + 1) = k + 1 + i := by omega
      rw [this]
      simpa using hsucc

/-! The row-major chunk list. -/

theorem rowMajorGen (m : Nat) :
    ∀ n : Nat, (List.range n).flatMap
        (fun cy => (List.range m).map fun cx => (cx, cy))
      = (List.range (n * m)).map (fun i => (i % m, i / m)) := by
  intro n
  induction n with
  | zero => simp
  | succ n ih =>
    rw [List.range_succ, List.flatMap_append, ih]
    have hadd : (n + 1) * m = n * m + m := by ring
    rw [hadd, List.range_add, List.map_append]
    congr 1
    · simp only [List.flatMap_singleton]
      rw [List.map_map]
      apply List.map_congr_left
      intro j hj
      have hjm : j < m := List.mem_range.mp hj
      have h1 : (n * m + j) % m = j := by
        rw [Nat.mul_comm n m, Nat.mul_add_mod]
        exact Nat.mod_eq_of_lt hjm
      have h2 : (n * m + j) / m = n := by
        rw [Nat.mul_comm n m, Nat.mul_add_div (by omega)]
        simp [Nat.div_eq_of_lt hjm]
      simp [h1, h2]

theorem rowMajor_eq_map (cfg : GenCfg) :
    rowMajor cfg = (List.range (cfg.CHUNKS_Y * cfg.CHUNKS_X)).map
      (fun i => (i % cfg.CHUNKS_X, i / cfg.CHUNKS_X)) :=
  rowMajorGen cfg.CHUNKS_X cfg.CHUNKS_Y

theorem rowMajor_length (cfg : GenCfg) :
    (rowMajor cfg).length = cfg.CHUNKS_Y * cfg.CHUNKS_X := by
  rw [rowMajor_eq_map]
  simp

theorem chunkPair_injective (m : Nat) {i j : Nat}
    (h : (i % m, i / m) = (j % m, j / m)) : i = j := by
  injection h with h1 h2
  have hi := Nat.div_add_mod i m
  rw [h1, h2, Nat.div_add_mod j m] at hi
  exact hi.symm

theorem rowMajor_get (cfg : GenCfg) (n : Nat)
    (h : n < (rowMajor cfg).length) :
    (rowMajor cfg).get ⟨n, h⟩ = (n % cfg.CHUNKS_X, n / cfg.CHUNKS_X) := by
  have h2 := h
  rw [rowMajor_length] at h2
  have key : (rowMajor cfg)[n]? = some (n % cfg.CHUNKS_X, n / cfg.CHUNKS_X) := by
    rw [rowMajor_eq_map, List.getElem?_map, List.getElem?_range h2]
    rfl
  have hg : (rowMajor cfg)[n]? = some ((rowMajor cfg).get ⟨n, h⟩) := by
    simp [List.getElem?_eq_getElem h]
  rw [hg] at key
  exact Option.some.inj key

theorem rowMajor_take (cfg : GenCfg) (n : Nat)
    (h : n ≤ (rowMajor cfg).length) :
    (rowMajor cfg).take n = (List.range n).map
      (fun i => (i % cfg.CHUNKS_X, i / cfg.CHUNKS_X)) := by
  rw [rowMajor_length] at h
  rw [rowMajor_eq_map, ← List.map_take, List.take_range, Nat.min_eq_left h]

/-! Association-list lookup helpers for the solved-grid store. -/

theorem lookup_isSome_of_mem_keys {store : List ((Nat × Nat) × Grid)}
    {k : Nat × Nat} (h : k ∈ store.map Prod.fst) :
    (store.lookup k).isSome := by
  induction store with
  | nil => simp at h
  | cons e rest ih =>
    simp only [List.map_cons, List.mem_cons] at h
    simp only [List.lookup]
    cases hbe : k == e.1 with
    | true => simp
    | false =>
      have hk : ¬k = e.1 := by simpa using hbe
      rcases h with h | h
      · exact absurd h hk
      · exact ih h

theorem lookup_append_some {l₁ l₂ : List ((Nat × Nat) × Grid)}
    {k : Nat × Nat} {g : Grid} (h : l₁.lookup k = some g) :
    (l₁ ++ l₂).lookup k = some g := by
  induction l₁ with
  | nil => simp [List.lookup] at h
  | cons e rest ih =>
    simp only [List.cons_append, List.lookup] at h ⊢
    cases hbe : k == e.1 with
    | true =>
      rw [hbe] at h
      exact h
    | false =>
      rw [hbe] at h
      exact ih h

/-! Run-level decomposition of `generate_all_chunks`. -/

/-- Shape of the job state after `n` chunks have all been generated
successfully: chunks attempted and grids stored in row-major order, counter
equal to the number of stored grids, trace `[1, 2, ..., n]`. -/
def cleanShape (cfg : GenCfg) (n : Nat) (st : GenState) : Prop :=
  st.err = none ∧
  st.processed = (rowMajor cfg).take n ∧
  st.store.map Prod.fst = (rowMajor cfg).take n ∧
  st.progress = st.store.length ∧
  st.progressTrace = List.range' 1 st.store.length

/-- Shape of the job state after a panic at the `n`-th chunk (0-based): that
chunk was attempted but no grid was stored for it, and nothing later was
touched. -/
def failShape (cfg : GenCfg) (n : Nat) (st : GenState) : Prop :=
  st.err.isSome ∧
  st.processed = (rowMajor cfg).take (n + 1) ∧
  st.store.map Prod.fst = (rowMajor cfg).take n ∧
  st.progress = st.store.length ∧
  st.progressTrace = List.range' 1 st.store.length

theorem processChunk_err_stick (cfg : GenCfg) (oracle : Oracle)
    (st : GenState) (c : Nat × Nat) (h : st.err.isSome) :
    processChunk cfg oracle st c = st := by
  simp [processChunk, h]

theorem foldl_err_stick (cfg : GenCfg) (oracle : Oracle) :
    ∀ (cs : List (Nat × Nat)) (st : GenState), st.err.isSome →
      cs.foldl (processChunk cfg oracle) st = st := by
  intro cs
  induction cs with
  | nil => intro st _; rfl
  | cons c rest ih =>
    intro st h
    simp only [List.foldl_cons, processChunk_err_stick cfg oracle st c h]
    exact ih st h

theorem foldl_take_succ (cfg : GenCfg) (oracle : Oracle) (n : Nat)
    (h : n < (rowMajor cfg).length) :
    ((rowMajor cfg).take (n + 1)).foldl (processChunk cfg oracle) initState
      = processChunk cfg oracle
          (((rowMajor cfg).take n).foldl (processChunk cfg oracle) initState)
          ((rowMajor cfg).get ⟨n, h⟩) := by
  rw [List.take_succ, List.foldl_append]
  simp [List.getElem?_eq_getElem h]

end MapGen

namespace MapGen

theorem cleanShape_init (cfg : GenCfg) : cleanShape cfg 0 initState := by
  refine ⟨rfl, by simp [initState], by simp [initState], rfl, rfl⟩

theorem rowMajor_take_succ (cfg : GenCfg) (n : Nat)
    (h : n < (rowMajor cfg).length) :
    (rowMajor cfg).take (n + 1)
      = (rowMajor cfg).take n ++ [(rowMajor cfg).get ⟨n, h⟩] := by
  rw [List.take_succ]
  simp [List.getElem?_eq_getElem h]

theorem processChunk_eq_buildFail (cfg : GenCfg) (oracle : Oracle)
    (st : GenState) (c : Nat × Nat) (he : st.err = none)
    (hb : build_initial_nodes cfg c.1 c.2 st.store = none) :
    processChunk cfg oracle st c
      = { st with err := some (.missingNeighbor c),
                  processed := st.processed ++ [c] } := by
  simp [processChunk, he, hb]

theorem processChunk_eq_success (cfg : GenCfg) (oracle : Oracle)
    (st : GenState) (c : Nat × Nat) (nodes : List Node) (g : Grid)
    (he : st.err = none)
    (hb : build_initial_nodes cfg c.1 c.2 st.store = some nodes)
    (hg : (generate_chunk_with_fallback oracle st.attempts nodes
        (decide (0 < c.1) && decide (0 < c.2))).1 = some g) :
    processChunk cfg oracle st c
      = { store := st.store ++ [(c, g)],
          progress := st.progress + 1,
          progressTrace := st.progressTrace ++ [st.progress + 1],
          processed := st.processed ++ [c],
          attempts := (generate_chunk_with_fallback oracle st.attempts nodes
            (decide (0 < c.1) && decide (0 < c.2))).2.2,
          err := none } := by
  simp [processChunk, he, hb, hg]

theorem processChunk_eq_genFail (cfg : GenCfg) (oracle : Oracle)
    (st : GenState) (c : Nat × Nat) (nodes : List Node) (he : st.err = none)
    (hb : build_initial_nodes cfg c.1 c.2 st.store = some nodes)
    (hg : (generate_chunk_with_fallback oracle st.attempts nodes
        (decide (0 < c.1) && decide (0 < c.2))).1 = none) :
    processChunk cfg oracle st c
      = { st with
          attempts := (generate_chunk_with_fallback oracle st.attempts nodes
            (decide (0 < c.1) && decide (0 < c.2))).2.2,
          processed := st.processed ++ [c],
          err := some (if decide (0 < c.1) && decide (0 < c.2)
                       then .cornerFailed c else .nonCornerFailed c) } := by
  simp [processChunk, he, hb, hg]

theorem step_clean (cfg : GenCfg) (oracle : Oracle) (n : Nat)
    (h : n < (rowMajor cfg).length) (st : GenState)
    (hc : cleanShape cfg n st) :
    cleanShape cfg (n + 1)
        (processChunk cfg oracle st ((rowMajor cfg).get ⟨n, h⟩))
    ∨ failShape cfg n
        (processChunk cfg oracle st ((rowMajor cfg).get ⟨n, h⟩)) := by
  obtain ⟨he, hp, hk, hprog, htr⟩ := hc
  cases hbuild : build_initial_nodes cfg ((rowMajor cfg).get ⟨n, h⟩).1
      ((rowMajor cfg).get ⟨n, h⟩).2 st.store with
  | none =>
    right
    rw [processChunk_eq_buildFail cfg oracle st _ he hbuild]
    refine ⟨by simp, ?_, by simpa using hk, by simpa using hprog,
      by simpa using htr⟩
    simp only [hp]
    exact (rowMajor_take_succ cfg n h).symm
  | some nodes =>
    cases hres : (generate_chunk_with_fallback oracle st.attempts nodes
        (decide (0 < ((rowMajor cfg).get ⟨n, h⟩).1) &&
         decide (0 < ((rowMajor cfg).get ⟨n, h⟩).2))).1 with
    | some g =>
      left
      rw [processChunk_eq_success cfg oracle st _ nodes g he hbuild hres]
      refine ⟨rfl, ?_, ?_, ?_, ?_⟩
      · simp only [hp]
        exact (rowMajor_take_succ cfg n h).symm
      · simp only [List.map_append, hk, List.map_cons, List.map_nil]
        exact (rowMajor_take_succ cfg n h).symm
      · simp [hprog]
      · simp only [List.length_append, List.length_cons, List.length_nil]
        rw [htr, hprog]
        rw [List.range'_concat]
        simp [Nat.add_comm]
    | none =>
      right
      rw [processChunk_eq_genFail cfg oracle st _ nodes he hbuild hres]
      refine ⟨by simp, ?_, by simpa using hk, by simpa using hprog,
        by simpa using htr⟩
      simp only [hp]
      exact (rowMajor_take_succ cfg n h).symm

theorem run_aux (cfg : GenCfg) (oracle : Oracle) :
    ∀ n, n ≤ (rowMajor cfg).length →
      cleanShape cfg n
        (((rowMajor cfg).take n).foldl (processChunk cfg oracle) initState)
      ∨ ∃ m, ∃ hm : m < (rowMajor cfg).length, m < n ∧
          cleanShape cfg m
            (((rowMajor cfg).take m).foldl (processChunk cfg oracle) initState) ∧
          ((rowMajor cfg).take n).foldl (processChunk cfg oracle) initState
            = processChunk cfg oracle
                (((rowMajor cfg).take m).foldl (processChunk cfg oracle)
                  initState)
                ((rowMajor cfg).get ⟨m, hm⟩) ∧
          failShape cfg m
            (((rowMajor cfg).take n).foldl (processChunk cfg oracle)
              initState) := by
  intro n
  induction n with
  | zero =>
    intro _
    left
    simpa using cleanShape_init cfg
  | succ n ih =>
    intro hn1
    have hn : n < (rowMajor cfg).length := hn1
    rcases ih (Nat.le_of_lt hn) with hclean | ⟨m, hm, hmn, hcm, heq, hf⟩
    · rw [foldl_take_succ cfg oracle n hn]
      rcases step_clean cfg oracle n hn _ hclean with hc1 | hf1
      · exact Or.inl hc1
      · exact Or.inr ⟨n, hn, Nat.lt_succ_self n, hclean, rfl, hf1⟩
    · have hstick :
          ((rowMajor cfg).take (n + 1)).foldl (processChunk cfg oracle)
              initState
            = ((rowMajor cfg).take n).foldl (processChunk cfg oracle)
                initState := by
        rw [foldl_take_succ cfg oracle n hn]
        exact processChunk_err_stick cfg oracle _ _ hf.1
      rw [hstick]
      exact Or.inr ⟨m, hm, Nat.lt_succ_of_lt hmn, hcm, heq, hf⟩

theorem run_cases (cfg : GenCfg) (oracle : Oracle) :
    cleanShape cfg (rowMajor cfg).length (generate_all_chunks cfg oracle)
    ∨ ∃ m, ∃ hm : m < (rowMajor cfg).length,
        cleanShape cfg m
          (((rowMajor cfg).take m).foldl (processChunk cfg oracle) initState) ∧
        generate_all_chunks cfg oracle
          = processChunk cfg oracle
              (((rowMajor cfg).take m).foldl (processChunk cfg oracle)
                initState)
              ((rowMajor cfg).get ⟨m, hm⟩) ∧
        failShape cfg m (generate_all_chunks cfg oracle) := by
  have h := run_aux cfg oracle (rowMajor cfg).length le_rfl
  rw [List.take_length] at h
  rcases h with h | ⟨m, hm, _, hcm, heq, hf⟩
  · exact Or.inl h
  · exact Or.inr ⟨m, hm, hcm, heq, hf⟩

end MapGen

namespace MapGen

/-! Characterization of the seam seeder's output. -/

theorem mem_leftSeeds {cfg : GenCfg} {left : Grid} {p : Node} :
    p ∈ leftSeeds cfg left ↔
      ∃ y z, y < cfg.GRID_Y ∧ z < GRID_Z ∧
        p = (((0 : Nat), y, z),
             left (index_from_coords cfg (cfg.GRID_X - 1) y z)) := by
  simp only [leftSeeds, List.mem_flatMap, List.mem_map, List.mem_range]
  constructor
  · rintro ⟨y, hy, z, hz, rfl⟩
    exact ⟨y, z, hy, hz, rfl⟩
  · rintro ⟨y, z, hy, hz, rfl⟩
    exact ⟨y, hy, z, hz, rfl⟩

theorem mem_bottomSeeds {cfg : GenCfg} {cx : Nat} {bottom : Grid} {p : Node} :
    p ∈ bottomSeeds cfg cx bottom ↔
      ∃ x z, (if 0 < cx then 1 else 0) ≤ x ∧ x < cfg.GRID_X ∧ z < GRID_Z ∧
        p = ((x, (0 : Nat), z),
             bottom (index_from_coords cfg x (cfg.GRID_Y - 1) z)) := by
  by_cases hcx : 0 < cx
  · simp only [bottomSeeds, if_pos hcx, List.mem_flatMap, List.mem_map,
      List.mem_range, List.mem_range'_1]
    constructor
    · rintro ⟨x, ⟨hx1, hx2⟩, z, hz, rfl⟩
      exact ⟨x, z, hx1, by omega, hz, rfl⟩
    · rintro ⟨x, z, hx1, hx2, hz, rfl⟩
      exact ⟨x, ⟨hx1, by omega⟩, z, hz, rfl⟩
  · simp only [bottomSeeds, if_neg hcx, List.mem_flatMap, List.mem_map,
      List.mem_range, List.mem_range'_1]
    constructor
    · rintro ⟨x, ⟨hx1, hx2⟩, z, hz, rfl⟩
      exact ⟨x, z, hx1, by omega, hz, rfl⟩
    · rintro ⟨x, z, hx1, hx2, hz, rfl⟩
      exact ⟨x, ⟨hx1, by omega⟩, z, hz, rfl⟩

theorem build_initial_nodes_eq {cfg : GenCfg} {cx cy : Nat}
    {store : List ((Nat × Nat) × Grid)} {nodes : List Node}
    (h : build_initial_nodes cfg cx cy store = some nodes) :
    ∃ l b, nodes = l ++ b ∧
      ((0 < cx ∧ ∃ left, store.lookup (cx - 1, cy) = some left ∧
          l = leftSeeds cfg left) ∨ (cx = 0 ∧ l = [])) ∧
      ((0 < cy ∧ ∃ bot, store.lookup (cx, cy - 1) = some bot ∧
          b = bottomSeeds cfg cx bot) ∨ (cy = 0 ∧ b = [])) := by
  unfold build_initial_nodes at h
  by_cases h1 : 0 < cx
  · rw [if_pos h1] at h
    cases hlk : store.lookup (cx - 1, cy) with
    | none => rw [hlk] at h; simp at h
    | some left =>
      rw [hlk] at h
      by_cases h2 : 0 < cy
      · rw [if_pos h2] at h
        cases hbk : store.lookup (cx, cy - 1) with
        | none => rw [hbk] at h; simp at h
        | some bot =>
          rw [hbk] at h
          simp only [Option.map_some', Option.some_bind,
            Option.some.injEq] at h
          exact ⟨leftSeeds cfg left, bottomSeeds cfg cx bot, h.symm,
            Or.inl ⟨h1, left, rfl, rfl⟩, Or.inl ⟨h2, bot, rfl, rfl⟩⟩
      · rw [if_neg h2] at h
        simp only [Option.map_some', Option.some_bind,
          Option.some.injEq] at h
        exact ⟨leftSeeds cfg left, [], by simpa using h.symm,
          Or.inl ⟨h1, left, rfl, rfl⟩, Or.inr ⟨by omega, rfl⟩⟩
  · rw [if_neg h1] at h
    by_cases h2 : 0 < cy
    · rw [if_pos h2] at h
      cases hbk : store.lookup (cx, cy - 1) with
      | none => rw [hbk] at h; simp at h
      | some bot =>
        rw [hbk] at h
        simp only [Option.map_some', Option.some_bind,
          Option.some.injEq] at h
        exact ⟨[], bottomSeeds cfg cx bot, by simpa using h.symm,
          Or.inr ⟨by omega, rfl⟩, Or.inl ⟨h2, bot, rfl, rfl⟩⟩
    · rw [if_neg h2] at h
      simp only [Option.some_bind, Option.some.injEq] at h
      exact ⟨[], [], by simpa using h.symm, Or.inr ⟨by omega, rfl⟩,
        Or.inr ⟨by omega, rfl⟩⟩

theorem build_initial_nodes_isSome (cfg : GenCfg) (cx cy : Nat)
    (store : List ((Nat × Nat) × Grid))
    (hl : 0 < cx → (cx - 1, cy) ∈ store.map Prod.fst)
    (hb : 0 < cy → (cx, cy - 1) ∈ store.map Prod.fst) :
    (build_initial_nodes cfg cx cy store).isSome := by
  unfold build_initial_nodes
  by_cases h1 : 0 < cx
  · obtain ⟨left, hleft⟩ :=
      Option.isSome_iff_exists.mp (lookup_isSome_of_mem_keys (hl h1))
    rw [if_pos h1, hleft]
    by_cases h2 : 0 < cy
    · obtain ⟨bot, hbot⟩ :=
        Option.isSome_iff_exists.mp (lookup_isSome_of_mem_keys (hb h2))
      rw [if_pos h2, hbot]
      simp
    · rw [if_neg h2]
      simp
  · rw [if_neg h1]
    by_cases h2 : 0 < cy
    · obtain ⟨bot, hbot⟩ :=
        Option.isSome_iff_exists.mp (lookup_isSome_of_mem_keys (hb h2))
      rw [if_pos h2, hbot]
      simp
    · rw [if_neg h2]
      simp

end MapGen

namespace MapGen

theorem decomp_mod_div (m q r : Nat) (hr : r < m) :
    (m * q + r) % m = r ∧ (m * q + r) / m = q := by
  constructor
  · rw [Nat.mul_add_mod, Nat.mod_eq_of_lt hr]
  · rw [Nat.mul_add_div (by omega), Nat.div_eq_of_lt hr, Nat.add_zero]

theorem left_neighbor_mem (cfg : GenCfg) (n : Nat)
    (hn : n < (rowMajor cfg).length) (hx : 0 < n % cfg.CHUNKS_X) :
    (n % cfg.CHUNKS_X - 1, n / cfg.CHUNKS_X) ∈ (rowMajor cfg).take n := by
  rw [rowMajor_take cfg n (Nat.le_of_lt hn)]
  have hpos : 0 < n := by
    rcases Nat.eq_zero_or_pos n with h0 | h; · simp [h0] at hx
    exact h
  refine List.mem_map.mpr ⟨n - 1, List.mem_range.mpr (by omega), ?_⟩
  by_cases hCX : cfg.CHUNKS_X = 0
  · simp [hCX, Nat.mod_zero, Nat.div_zero]
  · have hr : n % cfg.CHUNKS_X < cfg.CHUNKS_X := Nat.mod_lt _ (by omega)
    have hd := Nat.div_add_mod n cfg.CHUNKS_X
    have hn1 : n - 1 = cfg.CHUNKS_X * (n / cfg.CHUNKS_X)
        + (n % cfg.CHUNKS_X - 1) := by omega
    rw [hn1]
    obtain ⟨hm2, hd2⟩ := decomp_mod_div cfg.CHUNKS_X (n / cfg.CHUNKS_X)
      (n % cfg.CHUNKS_X - 1) (by omega)
    rw [hm2, hd2]

theorem bottom_neighbor_mem (cfg : GenCfg) (n : Nat)
    (hn : n < (rowMajor cfg).length) (hy : 0 < n / cfg.CHUNKS_X) :
    (n % cfg.CHUNKS_X, n / cfg.CHUNKS_X - 1) ∈ (rowMajor cfg).take n := by
  rw [rowMajor_take cfg n (Nat.le_of_lt hn)]
  have hCX : 0 < cfg.CHUNKS_X := by
    by_contra h0
    have : cfg.CHUNKS_X = 0 := by omega
    simp [this, Nat.div_zero] at hy
  have hr : n % cfg.CHUNKS_X < cfg.CHUNKS_X := Nat.mod_lt _ hCX
  have hd := Nat.div_add_mod n cfg.CHUNKS_X
  obtain ⟨t, ht⟩ : ∃ t, n / cfg.CHUNKS_X = t + 1 :=
    ⟨n / cfg.CHUNKS_X - 1, by omega⟩
  have hms : cfg.CHUNKS_X * (t + 1) = cfg.CHUNKS_X * t + cfg.CHUNKS_X := by
    ring
  rw [ht, hms] at hd
  have hsub : n - cfg.CHUNKS_X = cfg.CHUNKS_X * t + n % cfg.CHUNKS_X := by
    omega
  refine List.mem_map.mpr
    ⟨n - cfg.CHUNKS_X, List.mem_range.mpr (by omega), ?_⟩
  obtain ⟨hm2, hd2⟩ := decomp_mod_div cfg.CHUNKS_X t (n % cfg.CHUNKS_X) hr
  rw [hsub, hm2, hd2, ht]
  simp

theorem build_succeeds_clean (cfg : GenCfg) (n : Nat)
    (hn : n < (rowMajor cfg).length) (st : GenState)
    (hkeys : st.store.map Prod.fst = (rowMajor cfg).take n) :
    (build_initial_nodes cfg ((rowMajor cfg).get ⟨n, hn⟩).1
      ((rowMajor cfg).get ⟨n, hn⟩).2 st.store).isSome := by
  rw [rowMajor_get cfg n hn]
  apply build_initial_nodes_isSome
  · intro hx
    rw [hkeys]
    exact left_neighbor_mem cfg n hn hx
  · intro hy
    rw [hkeys]
    exact bottom_neighbor_mem cfg n hn hy

theorem range'_pairwise_le (s : Nat) : ∀ n, (List.range' s n).Pairwise (· ≤ ·) := by
  intro n
  induction n generalizing s with
  | zero => simp
  | succ n ih =>
    rw [List.range'_succ]
    refine List.Pairwise.cons ?_ (ih (s + 1))
    intro b hb
    have := (List.mem_range'_1.mp hb).1
    omega

end MapGen

namespace MapGen

theorem radiusLadder_length : radiusLadder.length = MAX_UNPIN_RADIUS := by
  simp [radiusLadder]

/-- C3: Relaxation Policy ladder: a doubly-seeded (corner) chunk is first
attempted with the full seed set (attempt `0` is `reducedNodes nodes 0 =
nodes`); on failure, radii `1..=MAX_UNPIN_RADIUS` are tried in increasing
order, the attempt at radius `r` using exactly the seed entries whose cell
does not satisfy `(x = 0 ∧ y < r) ∨ (y = 0 ∧ x > 0 ∧ x ≤ r)`; every attempt
before the last one failed, a successful result comes from the last attempt
made (so the ladder stops at the first success and nothing is attempted
afterwards), and only a total failure exhausts all `1 + MAX_UNPIN_RADIUS`
attempts. -/
theorem claim_C3_relaxation_ladder (oracle : Oracle) (k : Nat)
    (nodes : List Node) (res : Option Grid) (tr : List (List Node))
    (k2 : Nat)
    (heq : generate_chunk_with_fallback oracle k nodes true
      = (res, tr, k2)) :
    1 ≤ tr.length ∧ tr.length ≤ 1 + MAX_UNPIN_RADIUS ∧
    tr[0]? = some nodes ∧
    (∀ i, i < tr.length → tr[i]? = some (reducedNodes nodes i)) ∧
    (∀ i l, i + 1 < tr.length → tr[i]? = some l →
      oracle (k + i) l = none) ∧
    (∀ g, res = some g →
      oracle (k + (tr.length - 1))
        (reducedNodes nodes (tr.length - 1)) = some g) ∧
    (res = none → tr.length = 1 + MAX_UNPIN_RADIUS) ∧
    (∀ p i, p ∈ reducedNodes nodes i ↔
      p ∈ nodes ∧ ¬((p.1.1 = 0 ∧ p.1.2.1 < i) ∨
        (p.1.2.1 = 0 ∧ 0 < p.1.1 ∧ p.1.1 ≤ i))) := by
  cases hfull : oracle k nodes with
  | some g0 =>
    simp only [generate_chunk_with_fallback, hfull] at heq
    have h1 := congrArg (fun t => t.1) heq
    have h2 := congrArg (fun t => t.2.1) heq
    dsimp only at h1 h2
    subst h1
    subst h2
    refine ⟨by simp, by simp [MAX_UNPIN_RADIUS], by simp, ?_, ?_, ?_, ?_, ?_⟩
    · intro i hi
      simp only [List.length_singleton] at hi
      have : i = 0 := by omega
      subst this
      simp [reducedNodes_zero]
    · intro i l hi
      simp at hi
    · intro g hg
      simp only [List.length_singleton, Nat.sub_self]
      rw [reducedNodes_zero, Nat.add_zero, hfull]
      simp only [← hg]
    · intro hr
      simp at hr
    · intro p i
      exact mem_reducedNodes
  | none =>
    simp only [generate_chunk_with_fallback, hfull, if_pos] at heq
    have h1 := congrArg (fun t => t.1) heq
    have h2 := congrArg (fun t => t.2.1) heq
    dsimp only at h1 h2
    subst h1
    subst h2
    have hlen := tryRadii_length_le oracle nodes radiusLadder (k + 1)
    rw [radiusLadder_length] at hlen
    refine ⟨by simp, by simp [Nat.add_comm]; omega, by simp, ?_, ?_, ?_, ?_,
      ?_⟩
    · intro i hi
      cases i with
      | zero => simp [reducedNodes_zero]
      | succ j =>
        simp only [List.length_cons] at hi
        have hj : j < (tryRadii oracle nodes (k + 1) radiusLadder).2.1.length
          := by omega
        simp only [List.getElem?_cons_succ]
        rw [tryRadii_trace_get oracle nodes radiusLadder (k + 1) j hj,
          radiusLadder_get j (by omega)]
        simp
    · intro i l hi hget
      cases i with
      | zero =>
        simp only [List.getElem?_cons_zero, Option.some.injEq] at hget
        subst hget
        simpa using hfull
      | succ j =>
        simp only [List.length_cons] at hi
        simp only [List.getElem?_cons_succ] at hget
        have := tryRadii_earlier_failed oracle nodes radiusLadder (k + 1) j l
          (by omega) hget
        have hadd : k + 1 + j = k + (j + 1) := by omega
        rw [hadd] at this
        exact this
    · intro g hg
      obtain ⟨i, hi1, hi2, hsucc⟩ :=
        tryRadii_success_at oracle nodes radiusLadder (k + 1) g hg
      rw [radiusLadder_length] at hi2
      rw [radiusLadder_get i hi2] at hsucc
      simp only [Option.getD_some] at hsucc
      have hL : (nodes :: (tryRadii oracle nodes (k + 1)
          radiusLadder).2.1).length - 1 = i + 1 := by
        simp only [List.length_cons]
        omega
      rw [hL]
      have hadd : k + (i + 1) = k + 1 + i := by omega
      rw [hadd]
      exact hsucc
    · intro hr
      obtain ⟨hlen2, _⟩ :=
        tryRadii_all_failed oracle nodes radiusLadder (k + 1) hr
      rw [radiusLadder_length] at hlen2
      simp only [List.length_cons, hlen2]
      omega
    · intro p i
      exact mem_reducedNodes

/-- C4: Fatal failure policy: a non-corner chunk (cx = 0 or cy = 0) whose
full-seed attempt fails aborts at once with no relaxation attempt; a corner
chunk failing at the full set and at every radius `1..=MAX_UNPIN_RADIUS`
also aborts; and when the run aborts, no grid is stored for the failing
chunk (the last chunk attempted) and no chunk after it is attempted. -/
theorem claim_C4_fatal_failure (cfg : GenCfg) (oracle : Oracle) :
    (∀ k nodes, oracle k nodes = none →
      generate_chunk_with_fallback oracle k nodes false
        = (none, [nodes], k + 1)) ∧
    (∀ k nodes,
      (∀ i, i ≤ MAX_UNPIN_RADIUS →
        oracle (k + i) (reducedNodes nodes i) = none) →
      (generate_chunk_with_fallback oracle k nodes true).1 = none) ∧
    ((generate_all_chunks cfg oracle).err.isSome →
      ∃ n, ∃ hn : n < (rowMajor cfg).length,
        (generate_all_chunks cfg oracle).processed
          = (rowMajor cfg).take (n + 1) ∧
        (generate_all_chunks cfg oracle).store.map Prod.fst
          = (rowMajor cfg).take n ∧
        (generate_all_chunks cfg oracle).processed.getLast?
          = some ((rowMajor cfg).get ⟨n, hn⟩) ∧
        (rowMajor cfg).get ⟨n, hn⟩ ∉
          (generate_all_chunks cfg oracle).store.map Prod.fst ∧
        ((generate_all_chunks cfg oracle).err
            = some (GenError.cornerFailed ((rowMajor cfg).get ⟨n, hn⟩)) ∨
         (generate_all_chunks cfg oracle).err
            = some (GenError.nonCornerFailed ((rowMajor cfg).get ⟨n, hn⟩)))) := by
  refine ⟨?_, ?_, ?_⟩
  · intro k nodes hfail
    simp [generate_chunk_with_fallback, hfail]
  · intro k nodes hall
    cases hres : (generate_chunk_with_fallback oracle k nodes true).1 with
    | none => rfl
    | some g =>
      obtain ⟨r, hr, _, hsucc⟩ :=
        fallback_success_char oracle k nodes true g hres
      rw [hall r hr] at hsucc
      exact Option.noConfusion hsucc
  · intro hsome
    rcases run_cases cfg oracle with hclean | ⟨m, hm, hcm, heq, hf⟩
    · rw [hclean.1] at hsome
      simp at hsome
    · obtain ⟨_, hp, hk, _, _⟩ := hf
      have hnotin : (rowMajor cfg).get ⟨m, hm⟩ ∉
          (generate_all_chunks cfg oracle).store.map Prod.fst := by
        rw [hk, rowMajor_take cfg m (Nat.le_of_lt hm)]
        intro hcon
        obtain ⟨i, hi, hfi⟩ := List.mem_map.mp hcon
        rw [rowMajor_get cfg m hm] at hfi
        have := chunkPair_injective cfg.CHUNKS_X hfi
        rw [this] at hi
        exact absurd (List.mem_range.mp hi) (Nat.lt_irrefl m)
      have hlast : (generate_all_chunks cfg oracle).processed.getLast?
          = some ((rowMajor cfg).get ⟨m, hm⟩) := by
        rw [hp, rowMajor_take_succ cfg m hm]
        exact List.getLast?_concat _
      refine ⟨m, hm, hp, hk, hlast, hnotin, ?_⟩
      obtain ⟨nodes, hbuild⟩ := Option.isSome_iff_exists.mp
        (build_succeeds_clean cfg m hm _ hcm.2.2.1)
      cases hres : (generate_chunk_with_fallback oracle
          (((rowMajor cfg).take m).foldl (processChunk cfg oracle)
            initState).attempts nodes
          (decide (0 < ((rowMajor cfg).get ⟨m, hm⟩).1) &&
           decide (0 < ((rowMajor cfg).get ⟨m, hm⟩).2))).1 with
      | some g =>
        rw [processChunk_eq_success cfg oracle _ _ nodes g hcm.1 hbuild hres]
          at heq
        rw [heq] at hsome
        simp at hsome
      | none =>
        rw [processChunk_eq_genFail cfg oracle _ _ nodes hcm.1 hbuild hres]
          at heq
        rw [heq]
        by_cases hic : (decide (0 < ((rowMajor cfg).get ⟨m, hm⟩).1) &&
            decide (0 < ((rowMajor cfg).get ⟨m, hm⟩).2)) = true
        · left
          simp
          simp at hic
          omega
        · right
          simp
          simp at hic
          omega

end MapGen

namespace MapGen

/-- C5: Generation order and neighbor availability: the job attempts chunks
exactly along a row-major prefix (cy outer, cx inner, both increasing from
0, the whole list when no panic occurs), and the direct solved-grid map
lookups performed while seeding can never hit a missing key: the run never
ends in the `missingNeighbor` panic, for any oracle behavior. -/
theorem claim_C5_generation_order (cfg : GenCfg) (oracle : Oracle) :
    (∀ c, (generate_all_chunks cfg oracle).err
      ≠ some (GenError.missingNeighbor c)) ∧
    (generate_all_chunks cfg oracle).processed
      = (rowMajor cfg).take (generate_all_chunks cfg oracle).processed.length ∧
    ((generate_all_chunks cfg oracle).err = none →
      (generate_all_chunks cfg oracle).processed = rowMajor cfg) := by
  rcases run_cases cfg oracle with hclean | ⟨m, hm, hcm, heq, hf⟩
  · obtain ⟨he, hp, _, _, _⟩ := hclean
    rw [List.take_length] at hp
    refine ⟨?_, ?_, fun _ => hp⟩
    · intro c hcon
      rw [he] at hcon
      exact Option.noConfusion hcon
    · rw [hp, List.take_length]
  · obtain ⟨hsome, hp, hk, _, _⟩ := hf
    refine ⟨?_, ?_, ?_⟩
    · intro c hcon
      obtain ⟨nodes, hbuild⟩ := Option.isSome_iff_exists.mp
        (build_succeeds_clean cfg m hm _ hcm.2.2.1)
      cases hres : (generate_chunk_with_fallback oracle
          (((rowMajor cfg).take m).foldl (processChunk cfg oracle)
            initState).attempts nodes
          (decide (0 < ((rowMajor cfg).get ⟨m, hm⟩).1) &&
           decide (0 < ((rowMajor cfg).get ⟨m, hm⟩).2))).1 with
      | some g =>
        rw [processChunk_eq_success cfg oracle _ _ nodes g hcm.1 hbuild hres]
          at heq
        rw [heq] at hcon
        simp at hcon
      | none =>
        rw [processChunk_eq_genFail cfg oracle _ _ nodes hcm.1 hbuild hres]
          at heq
        rw [heq] at hcon
        simp only [GenState.mk.injEq] at hcon
        by_cases hic : (decide (0 < ((rowMajor cfg).get ⟨m, hm⟩).1) &&
            decide (0 < ((rowMajor cfg).get ⟨m, hm⟩).2)) = true
        · rw [if_pos hic] at hcon
          simp at hcon
        · rw [if_neg hic] at hcon
          simp at hcon
    · rw [hp]
      have hlen : ((rowMajor cfg).take (m + 1)).length = m + 1 := by
        rw [List.length_take]
        omega
      rw [hlen]
    · intro he
      rw [he] at hsome
      simp at hsome

/-- C7: Progress counter: `setup_generator` starts the counter at `0` with
`total = CHUNKS_X * CHUNKS_Y`; the job performs exactly one increment by 1
per stored chunk, immediately after storing it, so the successive counter
values are `[1, 2, ..., store.length]` (hence the counter never decreases),
the counter never exceeds `total`, and it equals `total` exactly when every
chunk has been generated (no panic). -/
theorem claim_C7_progress_counter (cfg : GenCfg) (oracle : Oracle) :
    (setup_progress cfg).current = 0 ∧
    (setup_progress cfg).total = cfg.CHUNKS_X * cfg.CHUNKS_Y ∧
    (generate_all_chunks cfg oracle).progress
      = (generate_all_chunks cfg oracle).store.length ∧
    (generate_all_chunks cfg oracle).progressTrace
      = List.range' 1 (generate_all_chunks cfg oracle).progress ∧
    (generate_all_chunks cfg oracle).progressTrace.Pairwise (· ≤ ·) ∧
    (generate_all_chunks cfg oracle).progress ≤ (setup_progress cfg).total ∧
    ((generate_all_chunks cfg oracle).progress = (setup_progress cfg).total
      ↔ (generate_all_chunks cfg oracle).err = none) := by
  have htot : (setup_progress cfg).total = cfg.CHUNKS_X * cfg.CHUNKS_Y := rfl
  rcases run_cases cfg oracle with hclean | ⟨m, hm, hcm, heq, hf⟩
  · obtain ⟨he, _, hk, hprog, htr⟩ := hclean
    have hlen : (generate_all_chunks cfg oracle).store.length
        = cfg.CHUNKS_X * cfg.CHUNKS_Y := by
      have := congrArg List.length hk
      rw [List.length_map, List.take_length, rowMajor_length] at this
      rw [this, Nat.mul_comm]
    refine ⟨rfl, htot, hprog, by rw [hprog, htr], ?_, ?_, ?_⟩
    · rw [htr]
      exact range'_pairwise_le 1 _
    · rw [hprog, hlen, htot]
    · rw [hprog, hlen, htot, he]
      simp
  · obtain ⟨hsome, _, hk, hprog, htr⟩ := hf
    have hlen : (generate_all_chunks cfg oracle).store.length = m := by
      have := congrArg List.length hk
      rw [List.length_map, List.length_take] at this
      omega
    have hmlt : m < cfg.CHUNKS_X * cfg.CHUNKS_Y := by
      rw [Nat.mul_comm, ← rowMajor_length]
      exact hm
    refine ⟨rfl, htot, hprog, by rw [hprog, htr], ?_, ?_, ?_⟩
    · rw [htr]
      exact range'_pairwise_le 1 _
    · rw [hprog, hlen, htot]
      omega
    · constructor
      · intro hcon
        rw [hprog, hlen, htot] at hcon
        omega
      · intro hcon
        rw [hcon] at hsome
        simp at hsome

end MapGen

namespace MapGen

theorem range'_pairwise_lt (s : Nat) :
    ∀ n, (List.range' s n).Pairwise (· < ·) := by
  intro n
  induction n generalizing s with
  | zero => simp
  | succ n ih =>
    rw [List.range'_succ]
    refine List.Pairwise.cons ?_ (ih (s + 1))
    intro b hb
    have := (List.mem_range'_1.mp hb).1
    omega

theorem leftSeeds_keys (cfg : GenCfg) (left : Grid) :
    (leftSeeds cfg left).map Prod.fst
      = (List.range cfg.GRID_Y).flatMap
          (fun y => (List.range GRID_Z).map fun z => ((0 : Nat), y, z)) := by
  simp only [leftSeeds, List.map_flatMap, List.map_map]
  rfl

theorem bottomSeeds_keys (cfg : GenCfg) (cx : Nat) (bottom : Grid) :
    (bottomSeeds cfg cx bottom).map Prod.fst
      = (List.range' (if 0 < cx then 1 else 0)
          (cfg.GRID_X - (if 0 < cx then 1 else 0))).flatMap
          (fun x => (List.range GRID_Z).map fun z => (x, (0 : Nat), z)) := by
  simp only [bottomSeeds, List.map_flatMap, List.map_map]
  rfl

theorem leftSeeds_keys_nodup (cfg : GenCfg) (left : Grid) :
    ((leftSeeds cfg left).map Prod.fst).Nodup := by
  rw [leftSeeds_keys, List.nodup_flatMap]
  constructor
  · intro y _
    refine List.Nodup.map ?_ (List.nodup_range _)
    intro a b hab
    simpa using hab
  · refine (List.pairwise_lt_range _).imp ?_
    intro y1 y2 hlt
    intro c hc1 hc2
    obtain ⟨z1, _, hz1⟩ := List.mem_map.mp hc1
    obtain ⟨z2, _, hz2⟩ := List.mem_map.mp hc2
    rw [← hz2] at hz1
    have : y1 = y2 := by injection hz1 with h1 h2; injection h2
    omega

theorem bottomSeeds_keys_nodup (cfg : GenCfg) (cx : Nat) (bottom : Grid) :
    ((bottomSeeds cfg cx bottom).map Prod.fst).Nodup := by
  rw [bottomSeeds_keys, List.nodup_flatMap]
  constructor
  · intro x _
    refine List.Nodup.map ?_ (List.nodup_range _)
    intro a b hab
    simpa using hab
  · refine (range'_pairwise_lt _ _).imp ?_
    intro x1 x2 hlt
    intro c hc1 hc2
    obtain ⟨z1, _, hz1⟩ := List.mem_map.mp hc1
    obtain ⟨z2, _, hz2⟩ := List.mem_map.mp hc2
    rw [← hz2] at hz1
    have : x1 = x2 := by injection hz1
    omega

/-- C2: Seam Seeder output: for chunk `(cx, cy)` the seed list has pairwise
distinct cells (so every cell is seeded at most once); when `cx > 0` it
contains, for every `(y, z)` in range, the entry pinning `(0, y, z)` to the
left neighbor's `(GRID_X - 1, y, z)` value; when `cy > 0` it contains, for
every `z` and every `x` from (`1` if `cx > 0` else `0`) to `GRID_X - 1`,
the entry pinning `(x, 0, z)` to the bottom neighbor's `(x, GRID_Y - 1, z)`
value; it contains nothing else; any entry at a shared corner cell
`(0, 0, z)` of a doubly-seeded chunk carries the LEFT neighbor's value; and
`try_generate_chunk` registers all `6` face directions of every seeded cell
as externally constrained border zones. -/
theorem claim_C2_seam_seeder (cfg : GenCfg) (cx cy : Nat)
    (store : List ((Nat × Nat) × Grid)) (nodes : List Node)
    (h : build_initial_nodes cfg cx cy store = some nodes) :
    (nodes.map Prod.fst).Nodup ∧
    (0 < cx → ∃ left, store.lookup (cx - 1, cy) = some left ∧
      ∀ y z, y < cfg.GRID_Y → z < GRID_Z →
        (((0 : Nat), y, z),
         left (index_from_coords cfg (cfg.GRID_X - 1) y z)) ∈ nodes) ∧
    (0 < cy → ∃ bot, store.lookup (cx, cy - 1) = some bot ∧
      ∀ x z, (if 0 < cx then 1 else 0) ≤ x → x < cfg.GRID_X → z < GRID_Z →
        ((x, (0 : Nat), z),
         bot (index_from_coords cfg x (cfg.GRID_Y - 1) z)) ∈ nodes) ∧
    (∀ p, p ∈ nodes →
      (0 < cx ∧ p.1.1 = 0 ∧ p.1.2.1 < cfg.GRID_Y ∧ p.1.2.2 < GRID_Z) ∨
      (0 < cy ∧ p.1.2.1 = 0 ∧ (if 0 < cx then 1 else 0) ≤ p.1.1 ∧
        p.1.1 < cfg.GRID_X ∧ p.1.2.2 < GRID_Z)) ∧
    (0 < cx → ∀ p z, p ∈ nodes → p.1 = (0, 0, z) →
      ∃ left, store.lookup (cx - 1, cy) = some left ∧
        p.2 = left (index_from_coords cfg (cfg.GRID_X - 1) 0 z)) ∧
    (∀ p, p ∈ nodes → ∀ d, d < 6 →
      (index_from_coords cfg p.1.1 p.1.2.1 p.1.2.2, d)
        ∈ border_zones cfg nodes) := by
  obtain ⟨l, b, hnodes, hl, hb⟩ := build_initial_nodes_eq h
  subst hnodes
  refine ⟨?_, ?_, ?_, ?_, ?_, ?_⟩
  · rw [List.map_append]
    have hln : (l.map Prod.fst).Nodup := by
      rcases hl with ⟨_, left, _, rfl⟩ | ⟨_, rfl⟩
      · exact leftSeeds_keys_nodup cfg left
      · simp
    have hbn : (b.map Prod.fst).Nodup := by
      rcases hb with ⟨_, bot, _, rfl⟩ | ⟨_, rfl⟩
      · exact bottomSeeds_keys_nodup cfg cx bot
      · simp
    refine hln.append hbn ?_
    rcases hl with ⟨hcx, left, _, rfl⟩ | ⟨_, rfl⟩
    · rcases hb with ⟨hcy, bot, _, rfl⟩ | ⟨_, rfl⟩
      · intro a ha1 ha2
        obtain ⟨p1, hp1, hpa1⟩ := List.mem_map.mp ha1
        obtain ⟨p2, hp2, hpa2⟩ := List.mem_map.mp ha2
        obtain ⟨y, z, _, _, rfl⟩ := mem_leftSeeds.mp hp1
        obtain ⟨x, z2, hx1, _, _, rfl⟩ := mem_bottomSeeds.mp hp2
        rw [if_pos hcx] at hx1
        rw [← hpa2] at hpa1
        have : (0 : Nat) = x := congrArg Prod.fst hpa1
        omega
      · simp
    · simp
  · intro hcx
    rcases hl with ⟨_, left, hlk, rfl⟩ | ⟨h0, _⟩
    · exact ⟨left, hlk, fun y z hy hz =>
        List.mem_append_left _ (mem_leftSeeds.mpr ⟨y, z, hy, hz, rfl⟩)⟩
    · omega
  · intro hcy
    rcases hb with ⟨_, bot, hbk, rfl⟩ | ⟨h0, _⟩
    · exact ⟨bot, hbk, fun x z hx1 hx2 hz =>
        List.mem_append_right _
          (mem_bottomSeeds.mpr ⟨x, z, hx1, hx2, hz, rfl⟩)⟩
    · omega
  · intro p hp
    rcases List.mem_append.mp hp with hpl | hpb
    · rcases hl with ⟨hcx, left, _, rfl⟩ | ⟨_, rfl⟩
      · obtain ⟨y, z, hy, hz, rfl⟩ := mem_leftSeeds.mp hpl
        exact Or.inl ⟨hcx, rfl, hy, hz⟩
      · simp at hpl
    · rcases hb with ⟨hcy, bot, _, rfl⟩ | ⟨_, rfl⟩
      · obtain ⟨x, z, hx1, hx2, hz, rfl⟩ := mem_bottomSeeds.mp hpb
        exact Or.inr ⟨hcy, rfl, hx1, hx2, hz⟩
      · simp at hpb
  · intro hcx p z hp hcell
    rcases List.mem_append.mp hp with hpl | hpb
    · rcases hl with ⟨_, left, hlk, rfl⟩ | ⟨h0, _⟩
      · obtain ⟨y, z2, hy, hz2, rfl⟩ := mem_leftSeeds.mp hpl
        refine ⟨left, hlk, ?_⟩
        have hy0 : y = 0 := by
          have := congrArg (fun c : Cell => c.2.1) hcell
          simpa using this
        have hz0 : z2 = z := by
          have := congrArg (fun c : Cell => c.2.2) hcell
          simpa using this
        rw [hy0, hz0]
      · omega
    · rcases hb with ⟨hcy, bot, _, rfl⟩ | ⟨_, rfl⟩
      · obtain ⟨x, z2, hx1, hx2, hz2, rfl⟩ := mem_bottomSeeds.mp hpb
        rw [if_pos hcx] at hx1
        have hx0 : x = 0 := by
          have := congrArg (fun c : Cell => c.1) hcell
          simpa using this
        omega
      · simp at hpb
  · intro p hp d hd
    exact List.mem_flatMap.mpr
      ⟨p, hp, List.mem_map.mpr ⟨d, List.mem_range.mpr hd, rfl⟩⟩

end MapGen

namespace MapGen

/-- Guarantee assumed of the external solver: whenever it succeeds, the
returned grid honors every initial node it was given.  (The real generator
rejects conflicting or out-of-bounds initial nodes — `with_initial_nodes`
returns `Err`, modelled by the oracle returning `none` — so a successful
run starts from the pinned values.) -/
def RespectsSeeds (cfg : GenCfg) (oracle : Oracle) : Prop :=
  ∀ k ns g, oracle k ns = some g →
    ∀ p, p ∈ ns →
      g (index_from_coords cfg p.1.1 p.1.2.1 p.1.2.2) = p.2

/-- Per-entry x-seam fact over a store `S`: a stored chunk with `cx > 0` has
a left neighbor in `S` and agrees with it along the shared column at every
row the successful attempt still pinned (`r = 0`, the full set, unless the
chunk was doubly seeded and relaxed). -/
def entryOK (cfg : GenCfg) (S : List ((Nat × Nat) × Grid))
    (e : (Nat × Nat) × Grid) : Prop :=
  0 < e.1.1 →
    ∃ left, S.lookup (e.1.1 - 1, e.1.2) = some left ∧
      ∃ r, r ≤ MAX_UNPIN_RADIUS ∧ (e.1.2 = 0 → r = 0) ∧
        ∀ y z, y < cfg.GRID_Y → z < GRID_Z → r ≤ y →
          e.2 (index_from_coords cfg 0 y z)
            = left (index_from_coords cfg (cfg.GRID_X - 1) y z)

theorem entryOK_extend {cfg : GenCfg} {S tail : List ((Nat × Nat) × Grid)}
    {e : (Nat × Nat) × Grid} (h : entryOK cfg S e) :
    entryOK cfg (S ++ tail) e := by
  intro hcx
  obtain ⟨left, hlk, r, hr, h0, hseam⟩ := h hcx
  exact ⟨left, lookup_append_some hlk, r, hr, h0, hseam⟩

theorem foldl_preserves (cfg : GenCfg) (oracle : Oracle)
    (P : GenState → Prop)
    (hstep : ∀ st c, P st → P (processChunk cfg oracle st c)) :
    ∀ (cs : List (Nat × Nat)) (st : GenState), P st →
      P (cs.foldl (processChunk cfg oracle) st) := by
  intro cs
  induction cs with
  | nil => intro st hst; exact hst
  | cons c rest ih => intro st hst; exact ih _ (hstep st c hst)

theorem seamInv_step (cfg : GenCfg) (oracle : Oracle)
    (hresp : RespectsSeeds cfg oracle) (st : GenState) (c : Nat × Nat)
    (hst : ∀ e ∈ st.store, entryOK cfg st.store e) :
    ∀ e ∈ (processChunk cfg oracle st c).store,
      entryOK cfg (processChunk cfg oracle st c).store e := by
  by_cases herr : st.err.isSome
  · rw [processChunk_err_stick cfg oracle st c herr]
    exact hst
  · have he : st.err = none := Option.not_isSome_iff_eq_none.mp herr
    cases hbuild : build_initial_nodes cfg c.1 c.2 st.store with
    | none =>
      rw [processChunk_eq_buildFail cfg oracle st c he hbuild]
      exact hst
    | some nodes =>
      cases hres : (generate_chunk_with_fallback oracle st.attempts nodes
          (decide (0 < c.1) && decide (0 < c.2))).1 with
      | none =>
        rw [processChunk_eq_genFail cfg oracle st c nodes he hbuild hres]
        exact hst
      | some g =>
        rw [processChunk_eq_success cfg oracle st c nodes g he hbuild hres]
        intro e hmem
        simp only at hmem
        rcases List.mem_append.mp hmem with hold | hnew
        · exact entryOK_extend (hst e hold)
        · have hec : e = (c, g) := by simpa using hnew
          subst hec
          intro hcx
          obtain ⟨l, b, hnodes, hl, hb⟩ := build_initial_nodes_eq hbuild
          rcases hl with ⟨_, left, hlk, hleq⟩ | ⟨h0, _⟩
          · refine ⟨left, lookup_append_some hlk, ?_⟩
            obtain ⟨r, hrM, hr0, hsucc⟩ :=
              fallback_success_char oracle st.attempts nodes
                (decide (0 < c.1) && decide (0 < c.2)) g hres
            refine ⟨r, hrM, ?_, ?_⟩
            · intro hcy0
              apply hr0
              have hc2 : c.2 = 0 := hcy0
              simp [hc2]
            · intro y z hy hz hry
              have hpmem : (((0 : Nat), y, z),
                  left (index_from_coords cfg (cfg.GRID_X - 1) y z))
                  ∈ nodes := by
                rw [hnodes, hleq]
                exact List.mem_append_left _
                  (mem_leftSeeds.mpr ⟨y, z, hy, hz, rfl⟩)
              have hpred : (((0 : Nat), y, z),
                  left (index_from_coords cfg (cfg.GRID_X - 1) y z))
                  ∈ reducedNodes nodes r := by
                refine mem_reducedNodes.mpr ⟨hpmem, ?_⟩
                rintro (⟨_, hyr⟩ | ⟨_, hx0, _⟩)
                · have hyr2 : y < r := hyr
                  omega
                · have hx02 : (0 : Nat) < 0 := hx0
                  exact absurd hx02 (Nat.lt_irrefl 0)
              have := hresp _ _ _ hsucc _ hpred
              simpa using this
          · have hcx2 : 0 < c.1 := hcx
            omega

/-- C1 (amended): x-seam continuity holds for every cell the successful
attempt still pinned, assuming the solver honors its seeds: for every
stored chunk with `cx > 0` there is a radius `r ≤ MAX_UNPIN_RADIUS` —
necessarily `0` (the full seed set) unless the chunk is doubly seeded and
the Relaxation Policy removed part of its seed set — such that the stored
grid agrees with the left neighbor's stored grid at every cell `(0, y, z)`
with `r ≤ y < GRID_Y`, `z < GRID_Z`.  The claim's original form (equality
at every `y`, relaxed chunks included) is refuted by
`claim_C1_xseam_counterexample`. -/
theorem claim_C1_xseam_amended (cfg : GenCfg) (oracle : Oracle)
    (hresp : RespectsSeeds cfg oracle) :
    ∀ e ∈ (generate_all_chunks cfg oracle).store, 0 < e.1.1 →
      ∃ left, (generate_all_chunks cfg oracle).store.lookup
          (e.1.1 - 1, e.1.2) = some left ∧
        ∃ r, r ≤ MAX_UNPIN_RADIUS ∧ (e.1.2 = 0 → r = 0) ∧
          ∀ y z, y < cfg.GRID_Y → z < GRID_Z → r ≤ y →
            e.2 (index_from_coords cfg 0 y z)
              = left (index_from_coords cfg (cfg.GRID_X - 1) y z) := by
  have := foldl_preserves cfg oracle
    (fun st => ∀ e ∈ st.store, entryOK cfg st.store e)
    (fun st c hst => seamInv_step cfg oracle hresp st c hst)
    (rowMajor cfg) initState (by intro e hmem; simp [initState] at hmem)
  exact this

end MapGen

namespace MapGen

/-- Concrete model instances for concrete runs. -/
def m0 : ModelInstance := ⟨0, 0⟩

def m1 : ModelInstance := ⟨1, 0⟩

/-- Small concrete configuration: 2×2 chunks of 2×2×GRID_Z cells. -/
def cfgW : GenCfg := ⟨2, 2, 2, 2⟩

/-- A grid that honors a given seed list and falls back to `dflt` on
unpinned cells: the canonical well-behaved solver output. -/
def seedLookupGrid (cfg : GenCfg) (ns : List Node)
    (dflt : Nat → ModelInstance) : Grid :=
  fun i =>
    ((ns.find? fun q =>
        index_from_coords cfg q.1.1 q.1.2.1 q.1.2.2 == i).map Prod.snd).getD
      (dflt i)

/-- Seed lists with no two conflicting pins on the same flat cell index. -/
def consistentNodes (cfg : GenCfg) (ns : List Node) : Bool :=
  ns.all fun p => ns.all fun q =>
    (index_from_coords cfg q.1.1 q.1.2.1 q.1.2.2
      != index_from_coords cfg p.1.1 p.1.2.1 p.1.2.2) || (q.2 == p.2)

theorem seedLookupGrid_respects (cfg : GenCfg) (ns : List Node)
    (dflt : Nat → ModelInstance) (hcons : consistentNodes cfg ns = true)
    (p : Node) (hp : p ∈ ns) :
    seedLookupGrid cfg ns dflt
      (index_from_coords cfg p.1.1 p.1.2.1 p.1.2.2) = p.2 := by
  unfold seedLookupGrid
  cases hf : ns.find? (fun q =>
      index_from_coords cfg q.1.1 q.1.2.1 q.1.2.2
        == index_from_coords cfg p.1.1 p.1.2.1 p.1.2.2) with
  | none =>
    exfalso
    have := List.find?_eq_none.mp hf p hp
    simp at this
  | some q =>
    have hqm := List.mem_of_find?_eq_some hf
    have hqp := List.find?_some hf
    simp only [beq_iff_eq] at hqp
    simp only [consistentNodes, List.all_eq_true] at hcons
    have hcq := hcons p hp q hqm
    rw [hqp] at hcq
    simp only [bne_self_eq_false, Bool.false_or, beq_iff_eq] at hcq
    simp [hcq]

/-- A well-behaved solver: honors any consistent seed list, fails on a
conflicting one, and fills unpinned cells with `m0`. -/
def goodOracle : Oracle := fun _k ns =>
  if consistentNodes cfgW ns then some (seedLookupGrid cfgW ns fun _ => m0)
  else none

theorem goodOracle_respects : RespectsSeeds cfgW goodOracle := by
  intro k ns g hsome p hp
  unfold goodOracle at hsome
  by_cases hc : consistentNodes cfgW ns = true
  · rw [if_pos hc] at hsome
    have hg := Option.some.inj hsome
    rw [← hg]
    exact seedLookupGrid_respects cfgW ns _ hc p hp
  · rw [if_neg hc] at hsome
    exact Option.noConfusion hsome

/-- A solver behavior (one possible random-seed history) that honors every
seed it is given, fails the full-seed attempt of chunk `(1,1)` (the 4th
attempt, counter `3`), succeeds at unpin radius `1` (counter `4`), and
there fills the now-unpinned corner cell with `m1` instead of `m0`. -/
def badOracle : Oracle := fun k ns =>
  if k = 3 then none
  else if consistentNodes cfgW ns then
    some (seedLookupGrid cfgW ns fun i =>
      if k = 4 ∧ i = 0 then m1 else m0)
  else none

theorem badOracle_respects : RespectsSeeds cfgW badOracle := by
  intro k ns g hsome p hp
  unfold badOracle at hsome
  by_cases hk : k = 3
  · rw [if_pos hk] at hsome
    exact Option.noConfusion hsome
  · rw [if_neg hk] at hsome
    by_cases hc : consistentNodes cfgW ns = true
    · rw [if_pos hc] at hsome
      have hg := Option.some.inj hsome
      rw [← hg]
      exact seedLookupGrid_respects cfgW ns _ hc p hp
    · rw [if_neg hc] at hsome
      exact Option.noConfusion hsome

/-- C1 counterexample: a seed-respecting solver behavior under which the
run stores, for chunk `(1,1)` (generated only after the Relaxation Policy
removed part of its seed set at radius 1), a grid whose cell `(0, 0, 0)`
differs from the left neighbor `(0,1)`'s stored cell `(GRID_X-1, 0, 0)` —
so the claimed unconditional x-seam continuity is false on the code. -/
theorem claim_C1_xseam_counterexample :
    RespectsSeeds cfgW badOracle ∧
    ((generate_all_chunks cfgW badOracle).store.lookup (1, 1)).map
        (fun g => g (index_from_coords cfgW 0 0 0)) = some m1 ∧
    ((generate_all_chunks cfgW badOracle).store.lookup (0, 1)).map
        (fun g => g (index_from_coords cfgW (cfgW.GRID_X - 1) 0 0))
      = some m0 ∧
    m1 ≠ m0 := by
  refine ⟨badOracle_respects, ?_, ?_, by decide⟩
  · decide
  · decide

/-- The solved-grid store of the all-successful concrete run. -/
def goodStore : List ((Nat × Nat) × Grid) :=
  (generate_all_chunks cfgW goodOracle).store

theorem goodStore_length : goodStore.length = 4 := by decide

/-- The second stored entry of the concrete run: chunk `(1, 0)`. -/
def wEntry : (Nat × Nat) × Grid :=
  goodStore.get ⟨1, by rw [goodStore_length]; omega⟩

theorem wEntry_mem : wEntry ∈ (generate_all_chunks cfgW goodOracle).store :=
  List.get_mem goodStore 1 (by rw [goodStore_length]; omega)

theorem claim_C1_xseam_witness :
    0 < wEntry.1.1 ∧
    ∃ left, (generate_all_chunks cfgW goodOracle).store.lookup
        (wEntry.1.1 - 1, wEntry.1.2) = some left ∧
      ∃ r, r ≤ MAX_UNPIN_RADIUS ∧ (wEntry.1.2 = 0 → r = 0) ∧
        ∀ y z, y < cfgW.GRID_Y → z < GRID_Z → r ≤ y →
          wEntry.2 (index_from_coords cfgW 0 y z)
            = left (index_from_coords cfgW (cfgW.GRID_X - 1) y z) :=
  ⟨by decide, claim_C1_xseam_amended cfgW goodOracle goodOracle_respects
      wEntry wEntry_mem (by decide)⟩

end MapGen

namespace MapGen

/-- A solver behavior that always fails (for exercising the fatal path). -/
def noneOracle : Oracle := fun _ _ => none

theorem claim_C2_witness :
    (((build_initial_nodes cfgW 1 1 goodStore).getD []).map Prod.fst).Nodup :=
  (claim_C2_seam_seeder cfgW 1 1 goodStore
    ((build_initial_nodes cfgW 1 1 goodStore).getD []) (by decide)).1

theorem claim_C3_witness :
    ((generate_chunk_with_fallback badOracle 3 [] true).2.1)[1]?
      = some (reducedNodes [] 1) :=
  (claim_C3_relaxation_ladder badOracle 3 []
    (generate_chunk_with_fallback badOracle 3 [] true).1
    (generate_chunk_with_fallback badOracle 3 [] true).2.1
    (generate_chunk_with_fallback badOracle 3 [] true).2.2 rfl).2.2.2.1 1
    (by decide)

theorem claim_C4_witness :
    ∃ n, ∃ hn : n < (rowMajor cfgW).length,
      (generate_all_chunks cfgW noneOracle).processed
        = (rowMajor cfgW).take (n + 1) ∧
      (generate_all_chunks cfgW noneOracle).store.map Prod.fst
        = (rowMajor cfgW).take n ∧
      (generate_all_chunks cfgW noneOracle).processed.getLast?
        = some ((rowMajor cfgW).get ⟨n, hn⟩) ∧
      (rowMajor cfgW).get ⟨n, hn⟩ ∉
        (generate_all_chunks cfgW noneOracle).store.map Prod.fst ∧
      ((generate_all_chunks cfgW noneOracle).err
          = some (GenError.cornerFailed ((rowMajor cfgW).get ⟨n, hn⟩)) ∨
       (generate_all_chunks cfgW noneOracle).err
          = some (GenError.nonCornerFailed ((rowMajor cfgW).get ⟨n, hn⟩))) :=
  (claim_C4_fatal_failure cfgW noneOracle).2.2 (by decide)

theorem claim_C5_witness :
    (generate_all_chunks cfgW goodOracle).processed = rowMajor cfgW :=
  (claim_C5_generation_order cfgW goodOracle).2.2 (by decide)

theorem claim_C7_witness :
    (generate_all_chunks cfgW goodOracle).progress
      = (setup_progress cfgW).total :=
  (claim_C7_progress_counter cfgW goodOracle).2.2.2.2.2.2.mpr (by decide)

end MapGen

namespace MapGen

/-- World-arithmetic constants of the assembler, from the (absent) config
module: `TILE_SIZE`, `NODE_SIZE_Z` (the x/y/z components of `NODE_SIZE`),
`TOTAL_GRID_X`, `TOTAL_GRID_Y`.  The `f32` arithmetic of the source is
modelled exactly over `ℚ`. -/
structure AsmCfg where
  TILE_SIZE : ℚ
  NODE_SIZE_Z : ℚ
  TOTAL_GRID_X : ℚ
  TOTAL_GRID_Y : ℚ

/-- A world-space position (`Vec3` over `ℚ`). -/
structure QVec3 where
  x : ℚ
  y : ℚ
  z : ℚ
deriving DecidableEq

/-- The per-chunk world offset computed in the result-building loop of
`generate_all_chunks`:
`((cx * (GRID_X-1) - TOTAL_GRID_X / 2) * TILE_SIZE, ..., 0)`. -/
def chunk_offset (cfg : GenCfg) (acfg : AsmCfg) (cx cy : Nat) : QVec3 :=
  ⟨((cx : ℚ) * ((cfg.GRID_X - 1 : Nat) : ℚ) - acfg.TOTAL_GRID_X / 2)
      * acfg.TILE_SIZE,
   ((cy : ℚ) * ((cfg.GRID_Y - 1 : Nat) : ℚ) - acfg.TOTAL_GRID_Y / 2)
      * acfg.TILE_SIZE,
   0⟩

/-- The global y row used by the depth-sort adjustment:
`chunk_y * (GRID_Y - 1) + position.y`. -/
def global_y (cfg : GenCfg) (chunk_y y : Nat) : Nat :=
  chunk_y * (cfg.GRID_Y - 1) + y

/-- The depth-sort adjustment added to a surviving cell's z position:
`NODE_SIZE_Z * (1 - global_y / TOTAL_GRID_Y)`. -/
def depth_adjust (cfg : GenCfg) (acfg : AsmCfg) (chunk_y y : Nat) : ℚ :=
  acfg.NODE_SIZE_Z * (1 - (global_y cfg chunk_y y : ℚ) / acfg.TOTAL_GRID_Y)

/-- One spawned cell record: its world position and the model instance.
The per-asset sprite offsets of the (absent) assets module are visual data
outside the generation engine; records are modelled per surviving cell at
the cell's base world position. -/
structure TileRecord where
  pos : QVec3
  inst : ModelInstance
deriving DecidableEq

/-- The spawner's asset map, used only through
`spawner.assets.get(&model_index)` presence. -/
abbrev Assets := Nat → Option Unit

/-- Loop body of `spawn_chunk_tiles` for one `node_index`: skip the cell if
its model has no asset entry; skip the rightmost column if the chunk is not
the last in its row, and the topmost row if not the last in its column;
otherwise emit the positioned, depth-adjusted record. -/
def spawn_tile (cfg : GenCfg) (acfg : AsmCfg) (assets : Assets)
    (grid_data : Grid) (off : QVec3) (chunk_x chunk_y : Nat)
    (node_index : Nat) : Option TileRecord :=
  match assets ((grid_data node_index).model_index) with
  | none => none
  | some _ =>
    let position := pos_from_index cfg node_index
    if position.1 = cfg.GRID_X - 1 ∧ chunk_x < cfg.CHUNKS_X - 1 then none
    else if position.2.1 = cfg.GRID_Y - 1 ∧ chunk_y < cfg.CHUNKS_Y - 1 then
      none
    else
      some ⟨⟨off.x + acfg.TILE_SIZE * ((position.1 : ℚ) + 1/2),
             off.y + acfg.TILE_SIZE * ((position.2.1 : ℚ) + 1/2),
             acfg.NODE_SIZE_Z * ((position.2.2 : ℚ) + 1/2)
               + depth_adjust cfg acfg chunk_y position.2.1⟩,
            grid_data node_index⟩

/-- `spawn_chunk_tiles`: iterate the grid's flat indices and spawn each
surviving cell. -/
def spawn_chunk_tiles (cfg : GenCfg) (acfg : AsmCfg) (assets : Assets)
    (grid_data : Grid) (off : QVec3) (chunk_x chunk_y : Nat) :
    List TileRecord :=
  (List.range (cfg.GRID_X * cfg.GRID_Y * GRID_Z)).filterMap
    (spawn_tile cfg acfg assets grid_data off chunk_x chunk_y)

/-- The `ChunkResult` rows built at the end of `generate_all_chunks`, in
row-major order, with `grids` standing for the solved-grid store. -/
structure ChunkResult where
  grid_data : Grid
  chunk_offset : QVec3
  chunk_x : Nat
  chunk_y : Nat

/-- Phase 2 of `generate_all_chunks`: one `ChunkResult` per chunk, in
row-major order, with its world offset. -/
def chunk_results (cfg : GenCfg) (acfg : AsmCfg)
    (grids : Nat × Nat → Grid) : List ChunkResult :=
  (rowMajor cfg).map fun c =>
    ⟨grids c, chunk_offset cfg acfg c.1 c.2, c.1, c.2⟩

/-- The complete assembled output: `poll_map_generation`'s spawning loop
applied to every `ChunkResult`. -/
def assemble_all (cfg : GenCfg) (acfg : AsmCfg) (assets : Assets)
    (grids : Nat × Nat → Grid) : List TileRecord :=
  (chunk_results cfg acfg grids).flatMap fun ch =>
    spawn_chunk_tiles cfg acfg assets ch.grid_data ch.chunk_offset
      ch.chunk_x ch.chunk_y

end MapGen

namespace MapGen

/-! Grid index bijection facts. -/

theorem pos_from_index_bounds (cfg : GenCfg) {i : Nat}
    (h : i < cfg.GRID_X * cfg.GRID_Y * GRID_Z) :
    (pos_from_index cfg i).1 < cfg.GRID_X ∧
    (pos_from_index cfg i).2.1 < cfg.GRID_Y ∧
    (pos_from_index cfg i).2.2 < GRID_Z := by
  have hX : 0 < cfg.GRID_X := by
    rcases Nat.eq_zero_or_pos cfg.GRID_X with h0 | hp
    · rw [h0] at h; simp at h
    · exact hp
  have hY : 0 < cfg.GRID_Y := by
    rcases Nat.eq_zero_or_pos cfg.GRID_Y with h0 | hp
    · rw [h0] at h; simp at h
    · exact hp
  refine ⟨Nat.mod_lt _ hX, Nat.mod_lt _ hY, ?_⟩
  have hmul : cfg.GRID_X * cfg.GRID_Y * GRID_Z
      = (cfg.GRID_X * cfg.GRID_Y) * GRID_Z := rfl
  exact Nat.div_lt_of_lt_mul (hmul ▸ h)

theorem index_pos_inverse (cfg : GenCfg) {i : Nat}
    (h : i < cfg.GRID_X * cfg.GRID_Y * GRID_Z) :
    index_from_coords cfg (pos_from_index cfg i).1
      (pos_from_index cfg i).2.1 (pos_from_index cfg i).2.2 = i := by
  have h1 := Nat.div_add_mod i cfg.GRID_X
  have h2 := Nat.div_add_mod (i / cfg.GRID_X) cfg.GRID_Y
  have h3 : i / (cfg.GRID_X * cfg.GRID_Y) = i / cfg.GRID_X / cfg.GRID_Y :=
    (Nat.div_div_eq_div_mul i cfg.GRID_X cfg.GRID_Y).symm
  show i % cfg.GRID_X + i / cfg.GRID_X % cfg.GRID_Y * cfg.GRID_X
      + i / (cfg.GRID_X * cfg.GRID_Y) * cfg.GRID_X * cfg.GRID_Y = i
  rw [h3]
  have hring : i % cfg.GRID_X + i / cfg.GRID_X % cfg.GRID_Y * cfg.GRID_X
      + i / cfg.GRID_X / cfg.GRID_Y * cfg.GRID_X * cfg.GRID_Y
      = cfg.GRID_X * (cfg.GRID_Y * (i / cfg.GRID_X / cfg.GRID_Y)
          + i / cfg.GRID_X % cfg.GRID_Y) + i % cfg.GRID_X := by
    ring
  rw [hring, h2, h1]

theorem index_lt (cfg : GenCfg) {x y z : Nat} (hx : x < cfg.GRID_X)
    (hy : y < cfg.GRID_Y) (hz : z < GRID_Z) :
    index_from_coords cfg x y z < cfg.GRID_X * cfg.GRID_Y * GRID_Z := by
  have h1 : x + y * cfg.GRID_X < cfg.GRID_X * cfg.GRID_Y := by
    have h2 : x + y * cfg.GRID_X < (y + 1) * cfg.GRID_X := by
      have hsm : (y + 1) * cfg.GRID_X = y * cfg.GRID_X + cfg.GRID_X := by
        ring
      omega
    have h3 : (y + 1) * cfg.GRID_X ≤ cfg.GRID_Y * cfg.GRID_X :=
      Nat.mul_le_mul_right _ hy
    rw [Nat.mul_comm cfg.GRID_X cfg.GRID_Y]
    omega
  have h4 : index_from_coords cfg x y z
      < (z + 1) * (cfg.GRID_X * cfg.GRID_Y) := by
    show x + y * cfg.GRID_X + z * cfg.GRID_X * cfg.GRID_Y
      < (z + 1) * (cfg.GRID_X * cfg.GRID_Y)
    have hsm : (z + 1) * (cfg.GRID_X * cfg.GRID_Y)
        = z * (cfg.GRID_X * cfg.GRID_Y) + cfg.GRID_X * cfg.GRID_Y := by
      ring
    have hassoc : z * cfg.GRID_X * cfg.GRID_Y
        = z * (cfg.GRID_X * cfg.GRID_Y) := by ring
    omega
  have h5 : (z + 1) * (cfg.GRID_X * cfg.GRID_Y)
      ≤ GRID_Z * (cfg.GRID_X * cfg.GRID_Y) :=
    Nat.mul_le_mul_right _ hz
  have h6 : GRID_Z * (cfg.GRID_X * cfg.GRID_Y)
      = cfg.GRID_X * cfg.GRID_Y * GRID_Z := by ring
  omega

theorem pos_index_inverse (cfg : GenCfg) {x y z : Nat} (hx : x < cfg.GRID_X)
    (hy : y < cfg.GRID_Y) (hz : z < GRID_Z) :
    pos_from_index cfg (index_from_coords cfg x y z) = (x, y, z) := by
  have hrw : index_from_coords cfg x y z
      = cfg.GRID_X * (y + cfg.GRID_Y * z) + x := by
    show x + y * cfg.GRID_X + z * cfg.GRID_X * cfg.GRID_Y
      = cfg.GRID_X * (y + cfg.GRID_Y * z) + x
    ring
  have hrw2 : index_from_coords cfg x y z
      = (cfg.GRID_X * cfg.GRID_Y) * z + (y * cfg.GRID_X + x) := by
    show x + y * cfg.GRID_X + z * cfg.GRID_X * cfg.GRID_Y
      = (cfg.GRID_X * cfg.GRID_Y) * z + (y * cfg.GRID_X + x)
    ring
  obtain ⟨hm1, hd1⟩ := decomp_mod_div cfg.GRID_X (y + cfg.GRID_Y * z) x hx
  obtain ⟨hm2, hd2⟩ := decomp_mod_div cfg.GRID_Y z y hy
  have hyb : y * cfg.GRID_X + x < cfg.GRID_X * cfg.GRID_Y := by
    have h2 : y * cfg.GRID_X + x < (y + 1) * cfg.GRID_X := by
      have hsm : (y + 1) * cfg.GRID_X = y * cfg.GRID_X + cfg.GRID_X := by
        ring
      omega
    have h3 : (y + 1) * cfg.GRID_X ≤ cfg.GRID_Y * cfg.GRID_X :=
      Nat.mul_le_mul_right _ hy
    rw [Nat.mul_comm cfg.GRID_X cfg.GRID_Y]
    omega
  obtain ⟨_, hd3⟩ := decomp_mod_div (cfg.GRID_X * cfg.GRID_Y) z
    (y * cfg.GRID_X + x) hyb
  have hswap : y + cfg.GRID_Y * z = cfg.GRID_Y * z + y := by omega
  have c1 : index_from_coords cfg x y z % cfg.GRID_X = x := by
    rw [hrw]; exact hm1
  have c2 : index_from_coords cfg x y z / cfg.GRID_X % cfg.GRID_Y = y := by
    rw [hrw, hd1, hswap]; exact hm2
  have c3 : index_from_coords cfg x y z / (cfg.GRID_X * cfg.GRID_Y) = z := by
    rw [hrw2]; exact hd3
  unfold pos_from_index
  rw [c1, c2, c3]

end MapGen

namespace MapGen

theorem spawn_tile_eq_some {cfg : GenCfg} {acfg : AsmCfg} {assets : Assets}
    {g : Grid} {off : QVec3} {cx cy i : Nat} {r : TileRecord} :
    spawn_tile cfg acfg assets g off cx cy i = some r ↔
      (assets ((g i).model_index)).isSome ∧
      ¬((pos_from_index cfg i).1 = cfg.GRID_X - 1 ∧ cx < cfg.CHUNKS_X - 1) ∧
      ¬((pos_from_index cfg i).2.1 = cfg.GRID_Y - 1 ∧
        cy < cfg.CHUNKS_Y - 1) ∧
      r = ⟨⟨off.x + acfg.TILE_SIZE * (((pos_from_index cfg i).1 : ℚ) + 1/2),
            off.y + acfg.TILE_SIZE
              * (((pos_from_index cfg i).2.1 : ℚ) + 1/2),
            acfg.NODE_SIZE_Z * (((pos_from_index cfg i).2.2 : ℚ) + 1/2)
              + depth_adjust cfg acfg cy (pos_from_index cfg i).2.1⟩,
           g i⟩ := by
  unfold spawn_tile
  cases hA : assets ((g i).model_index) with
  | none => simp
  | some u =>
    by_cases h1 : (pos_from_index cfg i).1 = cfg.GRID_X - 1 ∧
        cx < cfg.CHUNKS_X - 1
    · simp [h1]
    · by_cases h2 : (pos_from_index cfg i).2.1 = cfg.GRID_Y - 1 ∧
          cy < cfg.CHUNKS_Y - 1
      · simp [h1, h2]
      · simp only [h1, h2, if_false, Option.isSome_some, true_and,
          not_false_iff, Option.some.injEq]
        constructor
        · intro h
          exact h.symm
        · intro h
          exact h.symm

/-- World position of the cell with global coordinates `(gx, gy, z)`: what
`chunk_offset + local position` works out to for any chunk containing the
cell. -/
def globalPos (cfg : GenCfg) (acfg : AsmCfg) (gx gy z : Nat) : QVec3 :=
  ⟨acfg.TILE_SIZE * ((gx : ℚ) - acfg.TOTAL_GRID_X / 2 + 1/2),
   acfg.TILE_SIZE * ((gy : ℚ) - acfg.TOTAL_GRID_Y / 2 + 1/2),
   acfg.NODE_SIZE_Z * ((z : ℚ) + 1/2)
     + acfg.NODE_SIZE_Z * (1 - (gy : ℚ) / acfg.TOTAL_GRID_Y)⟩

theorem spawn_record_pos (cfg : GenCfg) (acfg : AsmCfg)
    (cx cy x y z : Nat) :
    (⟨(chunk_offset cfg acfg cx cy).x + acfg.TILE_SIZE * ((x : ℚ) + 1/2),
      (chunk_offset cfg acfg cx cy).y + acfg.TILE_SIZE * ((y : ℚ) + 1/2),
      acfg.NODE_SIZE_Z * ((z : ℚ) + 1/2) + depth_adjust cfg acfg cy y⟩
      : QVec3)
      = globalPos cfg acfg (cx * (cfg.GRID_X - 1) + x)
          (cy * (cfg.GRID_Y - 1) + y) z := by
  unfold chunk_offset globalPos depth_adjust global_y
  simp only [QVec3.mk.injEq]
  refine ⟨?_, ?_, ?_⟩ <;> push_cast <;> ring

theorem globalPos_inj (cfg : GenCfg) (acfg : AsmCfg)
    (hT : 0 < acfg.TILE_SIZE) (hN : acfg.NODE_SIZE_Z ≠ 0)
    {gx gy z gx2 gy2 z2 : Nat}
    (h : globalPos cfg acfg gx gy z = globalPos cfg acfg gx2 gy2 z2) :
    gx = gx2 ∧ gy = gy2 ∧ z = z2 := by
  unfold globalPos at h
  simp only [QVec3.mk.injEq] at h
  obtain ⟨hx, hy, hz⟩ := h
  have hT0 : acfg.TILE_SIZE ≠ 0 := ne_of_gt hT
  have hgx : (gx : ℚ) = (gx2 : ℚ) := by
    have := mul_left_cancel₀ hT0 hx
    linarith
  have hgy : (gy : ℚ) = (gy2 : ℚ) := by
    have := mul_left_cancel₀ hT0 hy
    linarith
  have hgz : (z : ℚ) = (z2 : ℚ) := by
    rw [hgy] at hz
    have hz2 : acfg.NODE_SIZE_Z * ((z : ℚ) + 1/2)
        = acfg.NODE_SIZE_Z * ((z2 : ℚ) + 1/2) := by linarith
    have := mul_left_cancel₀ hN hz2
    linarith
  exact ⟨Nat.cast_injective hgx, Nat.cast_injective hgy,
    Nat.cast_injective hgz⟩

/-- C9: Depth-sort continuity: the assembler's z adjustment is
`NODE_SIZE_Z * (1 - global_y / TOTAL_GRID_Y)` with
`global_y = chunk_y * (GRID_Y - 1) + position.y`; it depends only on the
cell's global y row, so any two cells on the same global row — in
particular the two copies of a shared horizontal seam row, since
`global_y cy (GRID_Y-1) = global_y (cy+1) 0` — receive identical
adjustment; and every spawned record's z position is built from exactly
this formula. -/
theorem claim_C9_depth_sort (cfg : GenCfg) (acfg : AsmCfg) :
    (∀ cy1 y1 cy2 y2, global_y cfg cy1 y1 = global_y cfg cy2 y2 →
      depth_adjust cfg acfg cy1 y1 = depth_adjust cfg acfg cy2 y2) ∧
    (∀ cy, global_y cfg cy (cfg.GRID_Y - 1) = global_y cfg (cy + 1) 0) ∧
    (∀ cy, depth_adjust cfg acfg cy (cfg.GRID_Y - 1)
      = depth_adjust cfg acfg (cy + 1) 0) ∧
    (∀ assets g off cx cy r,
      r ∈ spawn_chunk_tiles cfg acfg assets g off cx cy →
      ∃ y z, y < cfg.GRID_Y ∧ z < GRID_Z ∧
        r.pos.z = acfg.NODE_SIZE_Z * ((z : ℚ) + 1/2)
          + acfg.NODE_SIZE_Z
              * (1 - (global_y cfg cy y : ℚ) / acfg.TOTAL_GRID_Y)) := by
  have h1 : ∀ cy1 y1 cy2 y2, global_y cfg cy1 y1 = global_y cfg cy2 y2 →
      depth_adjust cfg acfg cy1 y1 = depth_adjust cfg acfg cy2 y2 := by
    intro cy1 y1 cy2 y2 h
    unfold depth_adjust
    rw [h]
  have h2 : ∀ cy, global_y cfg cy (cfg.GRID_Y - 1)
      = global_y cfg (cy + 1) 0 := by
    intro cy
    unfold global_y
    have hsm : (cy + 1) * (cfg.GRID_Y - 1)
        = cy * (cfg.GRID_Y - 1) + (cfg.GRID_Y - 1) := by ring
    omega
  refine ⟨h1, h2, fun cy => h1 _ _ _ _ (h2 cy), ?_⟩
  intro assets g off cx cy r hr
  obtain ⟨i, hi, hF⟩ := List.mem_filterMap.mp hr
  rw [spawn_tile_eq_some] at hF
  obtain ⟨_, _, _, rfl⟩ := hF
  have hb := pos_from_index_bounds cfg (List.mem_range.mp hi)
  exact ⟨(pos_from_index cfg i).2.1, (pos_from_index cfg i).2.2, hb.2.1,
    hb.2.2, rfl⟩

/-- C10: Implicit missing-asset drop: every emitted record's model has an
asset entry; if a model index has no entry in the spawner's asset map, no
record is emitted for any cell carrying it; and removing a model from the
asset map exactly filters that model's records out of the output — the
remaining cells are processed unchanged and no error is signalled (the
assembler has no error channel). -/
theorem claim_C10_missing_asset (cfg : GenCfg) (acfg : AsmCfg)
    (assets : Assets) (g : Grid) (off : QVec3) (chunk_x chunk_y m : Nat) :
    (∀ r ∈ spawn_chunk_tiles cfg acfg assets g off chunk_x chunk_y,
      (assets r.inst.model_index).isSome) ∧
    (assets m = none →
      ∀ r ∈ spawn_chunk_tiles cfg acfg assets g off chunk_x chunk_y,
        r.inst.model_index ≠ m) ∧
    spawn_chunk_tiles cfg acfg (fun j => if j = m then none else assets j)
        g off chunk_x chunk_y
      = (spawn_chunk_tiles cfg acfg assets g off chunk_x chunk_y).filter
          (fun r => r.inst.model_index != m) := by
  have hmem : ∀ r ∈ spawn_chunk_tiles cfg acfg assets g off chunk_x chunk_y,
      (assets r.inst.model_index).isSome := by
    intro r hr
    obtain ⟨i, _, hF⟩ := List.mem_filterMap.mp hr
    rw [spawn_tile_eq_some] at hF
    obtain ⟨hA, _, _, rfl⟩ := hF
    exact hA
  refine ⟨hmem, ?_, ?_⟩
  · intro hm r hr hcon
    have := hmem r hr
    rw [hcon, hm] at this
    simp at this
  · unfold spawn_chunk_tiles
    rw [List.filter_filterMap]
    apply List.filterMap_congr
    intro i _
    by_cases hm2 : (g i).model_index = m
    · unfold spawn_tile
      rw [hm2]
      simp only [if_pos rfl]
      cases hA : assets m with
      | none => simp
      | some u =>
        by_cases h1 : (pos_from_index cfg i).1 = cfg.GRID_X - 1 ∧
            chunk_x < cfg.CHUNKS_X - 1
        · simp [h1]
        · by_cases h2 : (pos_from_index cfg i).2.1 = cfg.GRID_Y - 1 ∧
              chunk_y < cfg.CHUNKS_Y - 1
          · simp [h1, h2]
          · simp [h1, h2, Option.filter, hm2]
    · unfold spawn_tile
      have hov : (fun j => if j = m then none else assets j)
          ((g i).model_index) = assets ((g i).model_index) := by
        simp [hm2]
      rw [hov]
      cases hA : assets ((g i).model_index) with
      | none => simp
      | some u =>
        by_cases h1 : (pos_from_index cfg i).1 = cfg.GRID_X - 1 ∧
            chunk_x < cfg.CHUNKS_X - 1
        · simp [h1]
        · by_cases h2 : (pos_from_index cfg i).2.1 = cfg.GRID_Y - 1 ∧
              chunk_y < cfg.CHUNKS_Y - 1
          · simp [h1, h2]
          · simp [h1, h2, Option.filter, hm2]

end MapGen

namespace MapGen

/-- `MapSpawnResources`: the spawner (reduced to its asset map; the grid
template is implicit in `GenCfg`) stored at setup for use after the
background task completes. -/
structure MapSpawnResources where
  assets : Assets

/-- Observable status of the background `Task` through one
`block_on(poll_once(...))`: still running, or finished with its chunks. -/
inductive TaskStatus where
  | pending
  | done (chunks : List ChunkResult)

/-- The resources `poll_map_generation` touches: `MapGenTask`,
`MapSpawnResources`, `MapGenProgress`, the `MapReady` marker, and the
spawned output. -/
structure WorldState where
  task : Option TaskStatus
  spawnRes : Option MapSpawnResources
  progress : Option ProgressRes
  mapReady : Bool
  spawned : List TileRecord

/-- `poll_map_generation`: return unchanged when the task or the spawn
resources are absent or the task is still running; when the result is
available, spawn every chunk, remove the task, spawn resources and
progress resource, and insert `MapReady`. -/
def poll_map_generation (cfg : GenCfg) (acfg : AsmCfg) (s : WorldState) :
    WorldState :=
  match s.task, s.spawnRes with
  | some TaskStatus.pending, some _ => s
  | some (TaskStatus.done chunks), some res =>
    { task := none, spawnRes := none, progress := none, mapReady := true,
      spawned := s.spawned ++ chunks.flatMap fun ch =>
        spawn_chunk_tiles cfg acfg res.assets ch.grid_data ch.chunk_offset
          ch.chunk_x ch.chunk_y }
  | _, _ => s

/-- C8: Poll semantics: a poll with the task or spawn resources absent, or
with the task still pending, changes nothing; the single poll that sees
the finished task spawns all chunk output, removes the task, the spawn
resources and the progress resource, and inserts the `MapReady` marker;
and polling is idempotent, so the result is consumed and the ready marker
emitted exactly once. -/
theorem claim_C8_poll_semantics (cfg : GenCfg) (acfg : AsmCfg)
    (s : WorldState) :
    (s.task = none → poll_map_generation cfg acfg s = s) ∧
    (s.spawnRes = none → poll_map_generation cfg acfg s = s) ∧
    (s.task = some TaskStatus.pending →
      poll_map_generation cfg acfg s = s) ∧
    (∀ chunks res, s.task = some (TaskStatus.done chunks) →
      s.spawnRes = some res →
      poll_map_generation cfg acfg s
        = { task := none, spawnRes := none, progress := none,
            mapReady := true,
            spawned := s.spawned ++ chunks.flatMap fun ch =>
              spawn_chunk_tiles cfg acfg res.assets ch.grid_data
                ch.chunk_offset ch.chunk_x ch.chunk_y }) ∧
    poll_map_generation cfg acfg (poll_map_generation cfg acfg s)
      = poll_map_generation cfg acfg s := by
  obtain ⟨t, sr, pr, mr, sp⟩ := s
  cases t with
  | none =>
    cases sr with
    | none =>
      refine ⟨fun _ => rfl, fun _ => rfl, ?_, ?_, rfl⟩
      · intro h; simp at h
      · intro _ _ h _; simp at h
    | some r =>
      refine ⟨fun _ => rfl, ?_, ?_, ?_, rfl⟩
      · intro h; simp at h
      · intro h; simp at h
      · intro _ _ h _; simp at h
  | some t0 =>
    cases sr with
    | none =>
      cases t0 with
      | pending =>
        refine ⟨?_, fun _ => rfl, fun _ => rfl, ?_, rfl⟩
        · intro h; simp at h
        · intro _ _ _ h; simp at h
      | done cs =>
        refine ⟨?_, fun _ => rfl, ?_, ?_, rfl⟩
        · intro h; simp at h
        · intro h; simp at h
        · intro _ _ _ h; simp at h
    | some r =>
      cases t0 with
      | pending =>
        refine ⟨?_, ?_, fun _ => rfl, ?_, rfl⟩
        · intro h; simp at h
        · intro h; simp at h
        · intro _ _ h _; simp at h
      | done cs =>
        refine ⟨?_, ?_, ?_, ?_, rfl⟩
        · intro h; simp at h
        · intro h; simp at h
        · intro h; simp at h
        · intro chunks res h1 h2
          simp only [Option.some.injEq] at h1 h2
          have hcs : chunks = cs := by
            injection h1.symm
          subst hcs
          subst h2
          rfl

/-- Concrete assembler constants for witnesses: `TILE_SIZE = 64`,
`NODE_SIZE_Z = 1`, world totals `3 × 3`. -/
def acfgW : AsmCfg := ⟨64, 1, 3, 3⟩

/-- Asset map holding only model index `0`. -/
def assets0 : Assets := fun j => if j = 0 then some () else none

theorem claim_C8_witness :
    poll_map_generation cfgW acfgW
        ⟨some (TaskStatus.done []), some ⟨assets0⟩, some ⟨0, 4⟩, false, []⟩
      = { task := none, spawnRes := none, progress := none,
          mapReady := true,
          spawned := ([] : List TileRecord)
            ++ ([] : List ChunkResult).flatMap fun ch =>
              spawn_chunk_tiles cfgW acfgW
                (MapSpawnResources.mk assets0).assets ch.grid_data
                ch.chunk_offset ch.chunk_x ch.chunk_y } :=
  (claim_C8_poll_semantics cfgW acfgW
    ⟨some (TaskStatus.done []), some ⟨assets0⟩, some ⟨0, 4⟩, false,
      []⟩).2.2.2.1 [] ⟨assets0⟩ rfl rfl

theorem claim_C9_witness :
    depth_adjust cfgW acfgW 0 1 = depth_adjust cfgW acfgW 1 0 :=
  (claim_C9_depth_sort cfgW acfgW).1 0 1 1 0 (by decide)

/-- The record emitted for cell index 0 of a concrete chunk, stated via
the loop's own position formula (rational arithmetic left symbolic). -/
def wRec10 : TileRecord :=
  ⟨⟨(⟨0, 0, 0⟩ : QVec3).x
      + acfgW.TILE_SIZE * (((pos_from_index cfgW 0).1 : ℚ) + 1/2),
    (⟨0, 0, 0⟩ : QVec3).y
      + acfgW.TILE_SIZE * (((pos_from_index cfgW 0).2.1 : ℚ) + 1/2),
    acfgW.NODE_SIZE_Z * (((pos_from_index cfgW 0).2.2 : ℚ) + 1/2)
      + depth_adjust cfgW acfgW 0 (pos_from_index cfgW 0).2.1⟩,
   (fun _ => m0) 0⟩

theorem wRec10_mem :
    wRec10 ∈ spawn_chunk_tiles cfgW acfgW assets0 (fun _ => m0)
      ⟨0, 0, 0⟩ 0 0 :=
  List.mem_filterMap.mpr ⟨0, by decide,
    spawn_tile_eq_some.mpr ⟨by decide, by decide, by decide, rfl⟩⟩

theorem claim_C10_witness : wRec10.inst.model_index ≠ 1 :=
  (claim_C10_missing_asset cfgW acfgW assets0 (fun _ => m0) ⟨0, 0, 0⟩
    0 0 1).2.1 (by decide) wRec10 wRec10_mem

end MapGen

namespace MapGen

theorem mem_spawn_chunk_tiles {cfg : GenCfg} {acfg : AsmCfg}
    {assets : Assets} {g : Grid} {cx cy : Nat} {r : TileRecord} :
    r ∈ spawn_chunk_tiles cfg acfg assets g (chunk_offset cfg acfg cx cy)
        cx cy ↔
      ∃ x y z, x < cfg.GRID_X ∧ y < cfg.GRID_Y ∧ z < GRID_Z ∧
        (assets ((g (index_from_coords cfg x y z)).model_index)).isSome ∧
        ¬(x = cfg.GRID_X - 1 ∧ cx < cfg.CHUNKS_X - 1) ∧
        ¬(y = cfg.GRID_Y - 1 ∧ cy < cfg.CHUNKS_Y - 1) ∧
        r = ⟨globalPos cfg acfg (cx * (cfg.GRID_X - 1) + x)
               (cy * (cfg.GRID_Y - 1) + y) z,
             g (index_from_coords cfg x y z)⟩ := by
  constructor
  · intro hr
    obtain ⟨i, hi, hF⟩ := List.mem_filterMap.mp hr
    have hiN := List.mem_range.mp hi
    rw [spawn_tile_eq_some] at hF
    obtain ⟨hA, h1, h2, rfl⟩ := hF
    obtain ⟨hx, hy, hz⟩ := pos_from_index_bounds cfg hiN
    refine ⟨(pos_from_index cfg i).1, (pos_from_index cfg i).2.1,
      (pos_from_index cfg i).2.2, hx, hy, hz, ?_, h1, h2, ?_⟩
    · rw [index_pos_inverse cfg hiN]
      exact hA
    · rw [index_pos_inverse cfg hiN, ← spawn_record_pos cfg acfg cx cy]
  · rintro ⟨x, y, z, hx, hy, hz, hA, h1, h2, rfl⟩
    apply List.mem_filterMap.mpr
    refine ⟨index_from_coords cfg x y z,
      List.mem_range.mpr (index_lt cfg hx hy hz), ?_⟩
    rw [spawn_tile_eq_some, pos_index_inverse cfg hx hy hz]
    exact ⟨hA, h1, h2, by rw [← spawn_record_pos cfg acfg cx cy]⟩

theorem oneD_unique (G C c x c2 x2 : Nat) (hc : c < C) (hx : x ≤ G)
    (hxe : x = G → c = C - 1) (hc2 : c2 < C) (hx2 : x2 ≤ G)
    (hxe2 : x2 = G → c2 = C - 1) (heq : c * G + x = c2 * G + x2) :
    c = c2 ∧ x = x2 := by
  have key : ∀ a b u v : Nat, a < b → b < C → u ≤ G → v ≤ G →
      (u = G → a = C - 1) → a * G + u = b * G + v → False := by
    intro a b u v hab hbC hu hv hue heq2
    have h1 : (b - a) * G + a * G = b * G := by
      rw [← Nat.add_mul]
      congr 1
      omega
    have h2 : 1 * G ≤ (b - a) * G := Nat.mul_le_mul_right _ (by omega)
    rw [Nat.one_mul] at h2
    have hu2 : u = G := by omega
    have := hue hu2
    omega
  rcases Nat.lt_trichotomy c c2 with hlt | heqc | hgt
  · exact absurd heq (fun h => key c c2 x x2 hlt hc2 hx hx2 hxe h)
  · subst heqc
    exact ⟨rfl, by omega⟩
  · exact absurd heq.symm (fun h => key c2 c x2 x hgt hc hx2 hx hxe2 h)

theorem oneD_cover (G C g : Nat) (hC : 0 < C)
    (hg : g < (C - 1) * G + (G + 1)) :
    ∃ c x, c < C ∧ x ≤ G ∧ (x = G → c = C - 1) ∧ c * G + x = g := by
  by_cases hlt : g < (C - 1) * G
  · have hG : 0 < G := by
      rcases Nat.eq_zero_or_pos G with h0 | h
      · rw [h0, Nat.mul_zero] at hlt; omega
      · exact h
    have hdiv : g / G < C - 1 := (Nat.div_lt_iff_lt_mul hG).mpr hlt
    have hmod := Nat.mod_lt g hG
    refine ⟨g / G, g % G, by omega, by omega, by omega, ?_⟩
    have hdm := Nat.div_add_mod g G
    have hcomm : g / G * G = G * (g / G) := Nat.mul_comm _ _
    omega
  · exact ⟨C - 1, g - (C - 1) * G, by omega, by omega, fun _ => rfl,
      by omega⟩

/-- The unique `(chunk, local cell)` pair that the seam-deduplicated
assembler lets emit the global cell `(gx, gy)`:
`q = ((chunk_x, chunk_y), local_x, local_y)`. -/
def coversCell (cfg : GenCfg) (gx gy : Nat)
    (q : (Nat × Nat) × Nat × Nat) : Prop :=
  q.1.1 < cfg.CHUNKS_X ∧ q.1.2 < cfg.CHUNKS_Y ∧
  q.2.1 < cfg.GRID_X ∧ q.2.2 < cfg.GRID_Y ∧
  ¬(q.2.1 = cfg.GRID_X - 1 ∧ q.1.1 < cfg.CHUNKS_X - 1) ∧
  ¬(q.2.2 = cfg.GRID_Y - 1 ∧ q.1.2 < cfg.CHUNKS_Y - 1) ∧
  q.1.1 * (cfg.GRID_X - 1) + q.2.1 = gx ∧
  q.1.2 * (cfg.GRID_Y - 1) + q.2.2 = gy

theorem coversCell_unique {cfg : GenCfg} {gx gy : Nat}
    {q q2 : (Nat × Nat) × Nat × Nat} (h : coversCell cfg gx gy q)
    (h2 : coversCell cfg gx gy q2) : q2 = q := by
  obtain ⟨ha1, ha2, ha3, ha4, ha5, ha6, ha7, ha8⟩ := h
  obtain ⟨hb1, hb2, hb3, hb4, hb5, hb6, hb7, hb8⟩ := h2
  have hxeq := oneD_unique (cfg.GRID_X - 1) cfg.CHUNKS_X q.1.1 q.2.1
    q2.1.1 q2.2.1 ha1 (by omega) (by omega) hb1 (by omega) (by omega)
    (by omega)
  have hyeq := oneD_unique (cfg.GRID_Y - 1) cfg.CHUNKS_Y q.1.2 q.2.2
    q2.1.2 q2.2.2 ha2 (by omega) (by omega) hb2 (by omega) (by omega)
    (by omega)
  obtain ⟨hc, hx⟩ := hxeq
  obtain ⟨hd, hy⟩ := hyeq
  have e1 : q2.1 = q.1 := by
    apply Prod.ext
    · exact hc.symm
    · exact hd.symm
  have e2 : q2.2 = q.2 := by
    apply Prod.ext
    · exact hx.symm
    · exact hy.symm
  calc q2 = (q2.1, q2.2) := rfl
    _ = (q.1, q.2) := by rw [e1, e2]
    _ = q := rfl

theorem mem_rowMajor {cfg : GenCfg} {c : Nat × Nat} :
    c ∈ rowMajor cfg ↔ c.1 < cfg.CHUNKS_X ∧ c.2 < cfg.CHUNKS_Y := by
  constructor
  · intro h
    rw [rowMajor] at h
    obtain ⟨cy, hcy, hc⟩ := List.mem_flatMap.mp h
    obtain ⟨cx, hcx, rfl⟩ := List.mem_map.mp hc
    exact ⟨List.mem_range.mp hcx, List.mem_range.mp hcy⟩
  · rintro ⟨h1, h2⟩
    rw [rowMajor]
    exact List.mem_flatMap.mpr ⟨c.2, List.mem_range.mpr h2,
      List.mem_map.mpr ⟨c.1, List.mem_range.mpr h1, rfl⟩⟩

theorem rowMajor_nodup (cfg : GenCfg) : (rowMajor cfg).Nodup := by
  rw [rowMajor_eq_map]
  exact List.Nodup.map (fun i j h => chunkPair_injective cfg.CHUNKS_X h)
    (List.nodup_range _)

theorem assemble_all_eq (cfg : GenCfg) (acfg : AsmCfg) (assets : Assets)
    (grids : Nat × Nat → Grid) :
    assemble_all cfg acfg assets grids
      = (rowMajor cfg).flatMap fun c =>
          spawn_chunk_tiles cfg acfg assets (grids c)
            (chunk_offset cfg acfg c.1 c.2) c.1 c.2 := by
  unfold assemble_all chunk_results
  rw [List.flatMap_map]

end MapGen


namespace MapGen

theorem pos_from_index_injective (cfg : GenCfg) :
    Function.Injective (pos_from_index cfg) := by
  intro i j h
  injection h with h1 h23
  injection h23 with h2 h3
  have hi1 := Nat.div_add_mod i cfg.GRID_X
  have hj1 := Nat.div_add_mod j cfg.GRID_X
  have hi2 := Nat.div_add_mod (i / cfg.GRID_X) cfg.GRID_Y
  have hj2 := Nat.div_add_mod (j / cfg.GRID_X) cfg.GRID_Y
  have hddi : i / (cfg.GRID_X * cfg.GRID_Y) = i / cfg.GRID_X / cfg.GRID_Y :=
    (Nat.div_div_eq_div_mul i cfg.GRID_X cfg.GRID_Y).symm
  have hddj : j / (cfg.GRID_X * cfg.GRID_Y) = j / cfg.GRID_X / cfg.GRID_Y :=
    (Nat.div_div_eq_div_mul j cfg.GRID_X cfg.GRID_Y).symm
  rw [hddi, hddj] at h3
  rw [h3, h2] at hi2
  have hx : i / cfg.GRID_X = j / cfg.GRID_X := by
    rw [← hi2, hj2]
  rw [hx, h1] at hi1
  exact hi1.symm.trans hj1

theorem mem_assemble_all {cfg : GenCfg} {acfg : AsmCfg} {assets : Assets}
    {grids : Nat × Nat → Grid} {r : TileRecord} :
    r ∈ assemble_all cfg acfg assets grids ↔
      ∃ cx cy x y z, cx < cfg.CHUNKS_X ∧ cy < cfg.CHUNKS_Y ∧
        x < cfg.GRID_X ∧ y < cfg.GRID_Y ∧ z < GRID_Z ∧
        (assets ((grids (cx, cy)
          (index_from_coords cfg x y z)).model_index)).isSome ∧
        ¬(x = cfg.GRID_X - 1 ∧ cx < cfg.CHUNKS_X - 1) ∧
        ¬(y = cfg.GRID_Y - 1 ∧ cy < cfg.CHUNKS_Y - 1) ∧
        r = ⟨globalPos cfg acfg (cx * (cfg.GRID_X - 1) + x)
               (cy * (cfg.GRID_Y - 1) + y) z,
             grids (cx, cy) (index_from_coords cfg x y z)⟩ := by
  rw [assemble_all_eq]
  constructor
  · intro h
    obtain ⟨c, hc, hr⟩ := List.mem_flatMap.mp h
    obtain ⟨hc1, hc2⟩ := mem_rowMajor.mp hc
    obtain ⟨x, y, z, hx, hy, hz, hA, h1, h2, hrr⟩ :=
      mem_spawn_chunk_tiles.mp hr
    exact ⟨c.1, c.2, x, y, z, hc1, hc2, hx, hy, hz, hA, h1, h2, hrr⟩
  · rintro ⟨cx, cy, x, y, z, hcx, hcy, hx, hy, hz, hA, h1, h2, rfl⟩
    refine List.mem_flatMap.mpr ⟨(cx, cy), mem_rowMajor.mpr ⟨hcx, hcy⟩, ?_⟩
    exact mem_spawn_chunk_tiles.mpr ⟨x, y, z, hx, hy, hz, hA, h1, h2, rfl⟩

theorem assemble_pos_nodup (cfg : GenCfg) (acfg : AsmCfg) (assets : Assets)
    (grids : Nat × Nat → Grid) (hT : 0 < acfg.TILE_SIZE)
    (hN : acfg.NODE_SIZE_Z ≠ 0) :
    ((assemble_all cfg acfg assets grids).map TileRecord.pos).Nodup := by
  have hT0 : acfg.TILE_SIZE ≠ 0 := ne_of_gt hT
  rw [assemble_all_eq, List.map_flatMap]
  rw [List.nodup_flatMap]
  constructor
  · intro c _
    unfold spawn_chunk_tiles
    rw [List.map_filterMap]
    refine List.Nodup.filterMap ?_ (List.nodup_range _)
    intro i j b hbi hbj
    simp only [Option.mem_def, Option.map_eq_some'] at hbi hbj
    obtain ⟨ri, hri, hbi2⟩ := hbi
    obtain ⟨rj, hrj, hbj2⟩ := hbj
    rw [spawn_tile_eq_some] at hri hrj
    obtain ⟨_, _, _, hrieq⟩ := hri
    obtain ⟨_, _, _, hrjeq⟩ := hrj
    subst hrieq
    subst hrjeq
    simp only [spawn_record_pos cfg acfg c.1 c.2] at hbi2 hbj2
    rw [← hbj2] at hbi2
    obtain ⟨hgx, hgy, hgz⟩ := globalPos_inj cfg acfg hT hN hbi2
    apply pos_from_index_injective cfg
    have e1 : (pos_from_index cfg i).1 = (pos_from_index cfg j).1 := by
      omega
    have e2 : (pos_from_index cfg i).2.1 = (pos_from_index cfg j).2.1 := by
      omega
    have e3 : (pos_from_index cfg i).2.2 = (pos_from_index cfg j).2.2 := hgz
    calc pos_from_index cfg i
        = ((pos_from_index cfg i).1, (pos_from_index cfg i).2.1,
           (pos_from_index cfg i).2.2) := rfl
      _ = ((pos_from_index cfg j).1, (pos_from_index cfg j).2.1,
           (pos_from_index cfg j).2.2) := by rw [e1, e2, e3]
      _ = pos_from_index cfg j := rfl
  · refine List.Pairwise.imp_of_mem ?_ (rowMajor_nodup cfg)
    intro c1 c2 hc1 hc2 hne
    intro p hp1 hp2
    obtain ⟨r1, hr1, hp1e⟩ := List.mem_map.mp hp1
    obtain ⟨r2, hr2, hp2e⟩ := List.mem_map.mp hp2
    obtain ⟨hb1, hb2⟩ := mem_rowMajor.mp hc1
    obtain ⟨hb3, hb4⟩ := mem_rowMajor.mp hc2
    obtain ⟨x1, y1, z1, hx1, hy1, hz1, _, hk1, hk2, hre1⟩ :=
      mem_spawn_chunk_tiles.mp hr1
    obtain ⟨x2, y2, z2, hx2, hy2, hz2, _, hk3, hk4, hre2⟩ :=
      mem_spawn_chunk_tiles.mp hr2
    subst hre1
    subst hre2
    rw [← hp2e] at hp1e
    simp only at hp1e
    obtain ⟨hgx, hgy, _⟩ := globalPos_inj cfg acfg hT hN hp1e
    have hcov1 : coversCell cfg (c1.1 * (cfg.GRID_X - 1) + x1)
        (c1.2 * (cfg.GRID_Y - 1) + y1) (c1, x1, y1) :=
      ⟨hb1, hb2, hx1, hy1, hk1, hk2, rfl, rfl⟩
    have hcov2 : coversCell cfg (c1.1 * (cfg.GRID_X - 1) + x1)
        (c1.2 * (cfg.GRID_Y - 1) + y1) (c2, x2, y2) :=
      ⟨hb3, hb4, hx2, hy2, hk3, hk4, hgx.symm, hgy.symm⟩
    have := coversCell_unique hcov1 hcov2
    apply hne
    have : c1 = (c2, x2, y2).1 := congrArg Prod.fst this.symm
    simpa using this

end MapGen

namespace MapGen

/-- C6 (amended): Seam-deduplicated assembly: no record is emitted for a
rightmost-column cell of a chunk that is not last in its row, nor for a
topmost-row cell of a chunk not last in its column; horizontally adjacent
chunk offsets differ by `(GRID_X-1) * TILE_SIZE` (vertically by
`(GRID_Y-1) * TILE_SIZE`), every record sits at the world position of its
global cell, and no two records of the whole assembly share a world
position.  For every in-range global cell exactly one `(chunk, local
cell)` pair survives the seam filter, and a record appears at that cell's
world position iff the surviving chunk's model there has an asset entry.
The claim's original "each shared seam cell is emitted by exactly one of
the two adjacent chunks" is refuted by
`claim_C6_seam_counterexample`: a corner cell shared by four chunks is
emitted by neither of the two laterally adjacent ones. -/
theorem claim_C6_seam_dedup_assembly (cfg : GenCfg) (acfg : AsmCfg)
    (assets : Assets) (grids : Nat × Nat → Grid)
    (hT : 0 < acfg.TILE_SIZE) (hN : acfg.NODE_SIZE_Z ≠ 0)
    (hCX : 0 < cfg.CHUNKS_X) (hCY : 0 < cfg.CHUNKS_Y) :
    (∀ cx cy : Nat, (chunk_offset cfg acfg (cx + 1) cy).x
        - (chunk_offset cfg acfg cx cy).x
        = ((cfg.GRID_X - 1 : Nat) : ℚ) * acfg.TILE_SIZE) ∧
    (∀ cx cy : Nat, (chunk_offset cfg acfg cx (cy + 1)).y
        - (chunk_offset cfg acfg cx cy).y
        = ((cfg.GRID_Y - 1 : Nat) : ℚ) * acfg.TILE_SIZE) ∧
    (∀ cx cy r, r ∈ spawn_chunk_tiles cfg acfg assets (grids (cx, cy))
        (chunk_offset cfg acfg cx cy) cx cy →
      ∃ x y z, x < cfg.GRID_X ∧ y < cfg.GRID_Y ∧ z < GRID_Z ∧
        (cx < cfg.CHUNKS_X - 1 → x ≠ cfg.GRID_X - 1) ∧
        (cy < cfg.CHUNKS_Y - 1 → y ≠ cfg.GRID_Y - 1) ∧
        r.pos = globalPos cfg acfg (cx * (cfg.GRID_X - 1) + x)
          (cy * (cfg.GRID_Y - 1) + y) z) ∧
    ((assemble_all cfg acfg assets grids).map TileRecord.pos).Nodup ∧
    (∀ gx gy z,
      gx < (cfg.CHUNKS_X - 1) * (cfg.GRID_X - 1) + cfg.GRID_X →
      gy < (cfg.CHUNKS_Y - 1) * (cfg.GRID_Y - 1) + cfg.GRID_Y →
      z < GRID_Z →
      ∃ q, coversCell cfg gx gy q ∧
        (∀ q2, coversCell cfg gx gy q2 → q2 = q) ∧
        ((assets ((grids q.1 (index_from_coords cfg q.2.1 q.2.2
            z)).model_index)).isSome →
          ∃ r ∈ assemble_all cfg acfg assets grids,
            r.pos = globalPos cfg acfg gx gy z) ∧
        (assets ((grids q.1 (index_from_coords cfg q.2.1 q.2.2
            z)).model_index) = none →
          ∀ r ∈ assemble_all cfg acfg assets grids,
            r.pos ≠ globalPos cfg acfg gx gy z)) := by
  refine ⟨?_, ?_, ?_, assemble_pos_nodup cfg acfg assets grids hT hN, ?_⟩
  · intro cx cy
    unfold chunk_offset
    push_cast
    ring
  · intro cx cy
    unfold chunk_offset
    push_cast
    ring
  · intro cx cy r hr
    obtain ⟨x, y, z, hx, hy, hz, _, h1, h2, rfl⟩ :=
      mem_spawn_chunk_tiles.mp hr
    exact ⟨x, y, z, hx, hy, hz, fun hlt hxe => h1 ⟨hxe, hlt⟩,
      fun hlt hye => h2 ⟨hye, hlt⟩, rfl⟩
  · intro gx gy z hgx hgy hz
    have hGX : 0 < cfg.GRID_X := by
      by_contra h0
      have h00 : cfg.GRID_X = 0 := by omega
      rw [h00] at hgx
      omega
    have hGY : 0 < cfg.GRID_Y := by
      by_contra h0
      have h00 : cfg.GRID_Y = 0 := by omega
      rw [h00] at hgy
      omega
    obtain ⟨cx0, x0, hcx0, hx0le, hx0e, hxsum⟩ :=
      oneD_cover (cfg.GRID_X - 1) cfg.CHUNKS_X gx hCX (by omega)
    obtain ⟨cy0, y0, hcy0, hy0le, hy0e, hysum⟩ :=
      oneD_cover (cfg.GRID_Y - 1) cfg.CHUNKS_Y gy hCY (by omega)
    have hcov : coversCell cfg gx gy ((cx0, cy0), x0, y0) := by
      unfold coversCell
      dsimp only
      refine ⟨hcx0, hcy0, by omega, by omega, ?_, ?_, hxsum, hysum⟩
      · rintro ⟨hxe, hlt⟩
        have := hx0e hxe
        omega
      · rintro ⟨hye, hlt⟩
        have := hy0e hye
        omega
    refine ⟨((cx0, cy0), x0, y0), hcov,
      fun q2 hq2 => coversCell_unique hcov hq2, ?_, ?_⟩
    · intro hA
      refine ⟨⟨globalPos cfg acfg gx gy z,
        grids (cx0, cy0) (index_from_coords cfg x0 y0 z)⟩, ?_, rfl⟩
      apply mem_assemble_all.mpr
      refine ⟨cx0, cy0, x0, y0, z, hcx0, hcy0, by omega, by omega, hz,
        hA, hcov.2.2.2.2.1, hcov.2.2.2.2.2.1, ?_⟩
      rw [hxsum, hysum]
    · intro hA0 r hr hpos
      obtain ⟨cx2, cy2, x2, y2, z2, hcx2, hcy2, hx2, hy2, hz2, hA2, hk3,
        hk4, rfl⟩ := mem_assemble_all.mp hr
      simp only at hpos
      obtain ⟨hgx2, hgy2, hgz2⟩ := globalPos_inj cfg acfg hT hN hpos
      have hcov2 : coversCell cfg gx gy ((cx2, cy2), x2, y2) :=
        ⟨hcx2, hcy2, hx2, hy2, hk3, hk4, hgx2, hgy2⟩
      have heqq := coversCell_unique hcov hcov2
      have ec1 : cx2 = cx0 := congrArg (fun q => q.1.1) heqq
      have ec2 : cy2 = cy0 := congrArg (fun q => q.1.2) heqq
      have ec3 : x2 = x0 := congrArg (fun q => q.2.1) heqq
      have ec4 : y2 = y0 := congrArg (fun q => q.2.2) heqq
      rw [ec1, ec2, ec3, ec4, hgz2] at hA2
      rw [hA0] at hA2
      simp at hA2

end MapGen

namespace MapGen

/-- C6 counterexample to the original wording: the global corner cell
`(1,1,0)` of a 2×2-chunk world with 2×2 grids lies on the x-seam between
the laterally adjacent chunks `(0,0)` and `(1,0)`, yet with all assets
present and uniform grids NEITHER of those two chunks emits a record at
its world position (chunk `(1,1)` alone does) — so a shared seam cell
need not be emitted by "exactly one of the two adjacent chunks". -/
theorem claim_C6_seam_counterexample :
    (∀ r ∈ spawn_chunk_tiles cfgW acfgW (fun _ => some ())
        (fun _ => m0) (chunk_offset cfgW acfgW 0 0) 0 0,
      r.pos ≠ globalPos cfgW acfgW 1 1 0) ∧
    (∀ r ∈ spawn_chunk_tiles cfgW acfgW (fun _ => some ())
        (fun _ => m0) (chunk_offset cfgW acfgW 1 0) 1 0,
      r.pos ≠ globalPos cfgW acfgW 1 1 0) ∧
    (∃ r ∈ spawn_chunk_tiles cfgW acfgW (fun _ => some ())
        (fun _ => m0) (chunk_offset cfgW acfgW 1 1) 1 1,
      r.pos = globalPos cfgW acfgW 1 1 0) := by
  have hT : (0 : ℚ) < acfgW.TILE_SIZE := by decide
  have hN : acfgW.NODE_SIZE_Z ≠ (0 : ℚ) := by decide
  have hGX : cfgW.GRID_X = 2 := rfl
  have hGY : cfgW.GRID_Y = 2 := rfl
  have hCX : cfgW.CHUNKS_X = 2 := rfl
  have hCY : cfgW.CHUNKS_Y = 2 := rfl
  refine ⟨?_, ?_, ?_⟩
  · intro r hr hpos
    obtain ⟨x, y, z, hx, hy, hz, hA, h1, h2, rfl⟩ :=
      mem_spawn_chunk_tiles.mp hr
    obtain ⟨e1, e2, e3⟩ := globalPos_inj cfgW acfgW hT hN hpos
    exact h1 ⟨by omega, by omega⟩
  · intro r hr hpos
    obtain ⟨x, y, z, hx, hy, hz, hA, h1, h2, rfl⟩ :=
      mem_spawn_chunk_tiles.mp hr
    obtain ⟨e1, e2, e3⟩ := globalPos_inj cfgW acfgW hT hN hpos
    exact h2 ⟨by omega, by omega⟩
  · refine ⟨⟨globalPos cfgW acfgW 1 1 0, m0⟩, ?_, rfl⟩
    apply mem_spawn_chunk_tiles.mpr
    exact ⟨0, 0, 0, by decide, by decide, by decide, by decide,
      by decide, by decide, rfl⟩

/-- C6 witness: the amended seam-deduplication theorem instantiated at
the concrete 2×2-chunk configuration with all assets present and uniform
grids; its hypotheses hold there. -/
theorem claim_C6_witness :
    ((0 : ℚ) < acfgW.TILE_SIZE ∧ acfgW.NODE_SIZE_Z ≠ (0 : ℚ) ∧
      0 < cfgW.CHUNKS_X ∧ 0 < cfgW.CHUNKS_Y) ∧
    ((assemble_all cfgW acfgW (fun _ => some ()) (fun _ _ => m0)).map
      TileRecord.pos).Nodup :=
  ⟨⟨by decide, by decide, by decide, by decide⟩,
   (claim_C6_seam_dedup_assembly cfgW acfgW (fun _ => some ())
     (fun _ _ => m0) (by decide) (by decide) (by decide)
     (by decide)).2.2.2.1⟩

end MapGen
